import Mathlib

/-!
# Verification of `multifit/multilinear.c` (GSL multilinear least squares)

Shallow embedding of the SVD-based linear least-squares solvers of
`src/multifit/multilinear.c` over the reals, together with proofs of the
specified properties.

The external collaborators (`gsl_linalg_SV_decomp_mod`,
`gsl_linalg_balance_columns`) are not part of the source tree; they are
modelled from the spec as oracle parameters constrained by validity
predicates (`IsSVD`, `IsBalance`).  Machine doubles are modelled as real
numbers; shape mismatches between the caller's buffers are unrepresentable
in the dependently typed embedding, so only the value-level error branches
(`tol <= 0`, zero ridge2 penalty entry) remain.

Array indices, matrix layouts and the arithmetic of each routine follow the
C source line by line; pointer aliasing between `X` and the workspace matrix
`A` (possible through `gsl_multifit_linear_ridge2`) is modelled by an
explicit `aliased` flag, as the spec's design notes direct.
-/

set_option maxHeartbeats 1000000

open Matrix

namespace GslMultifit

/-- GSL error codes that the multifit routines of this file can return. -/
inductive Errno where
  | EBADLEN
  | ENOTSQR
  | EINVAL
  | EDOM
  deriving DecidableEq

/-- The outputs written by a successful solve: effective rank, coefficient
vector `c`, covariance matrix `cov`, and residual chi-square. -/
@[ext] structure FitResult (p : ℕ) where
  rank : ℕ
  c : Fin p → ℝ
  cov : Matrix (Fin p) (Fin p) ℝ
  chisq : ℝ

/-- Modelled from the spec: the output of the external SVD provider
`gsl_linalg_SV_decomp_mod` (not in `src/`): the factor `U` overwriting the
input buffer, the singular values `S`, and the orthogonal factor `V`
(called `Q` in the C source). -/
structure SVDResult (n p : ℕ) where
  U : Matrix (Fin n) (Fin p) ℝ
  S : Fin p → ℝ
  V : Matrix (Fin p) (Fin p) ℝ

/-- Modelled from the spec: validity of the SVD provider's output on input
`A`: the factorization `A = U·S·Vᵀ` holds, `U` has orthonormal columns, `V`
is orthogonal, and the singular values are descending and nonnegative. -/
def IsSVD {n p : ℕ} (r : SVDResult n p) (A : Matrix (Fin n) (Fin p) ℝ) : Prop :=
  A = r.U * Matrix.diagonal r.S * r.Vᵀ ∧
  r.Uᵀ * r.U = 1 ∧
  r.Vᵀ * r.V = 1 ∧
  (∀ i j : Fin p, i ≤ j → r.S j ≤ r.S i) ∧
  (∀ j, 0 ≤ r.S j)

/-- Modelled from the spec: validity of the external column balancer
`gsl_linalg_balance_columns` (not in `src/`): it produces a matrix whose
column `j` is the input's column `j` divided by a positive recorded factor
`D j`. -/
def IsBalance {n p : ℕ} (res : Matrix (Fin n) (Fin p) ℝ × (Fin p → ℝ))
    (A : Matrix (Fin n) (Fin p) ℝ) : Prop :=
  (∀ j, 0 < res.2 j) ∧ ∀ i j, res.1 i j = A i j / res.2 j

/-- `GSL_DBL_EPSILON`, the double-precision machine epsilon `2^-52`, used as
the singular-value tolerance by the entry points that do not take one. -/
noncomputable def GSL_DBL_EPSILON : ℝ := 1 / 2 ^ 52

/-- The scale factor applied to column `j` of `QSI` in the unweighted core
(`multilinear.c:149-170`): zero when the singular value is at or below the
threshold, otherwise the Tikhonov-regularized inverse `s_j/(s_j² + λ²)`. -/
noncomputable def reg_alpha {p : ℕ} [NeZero p] (tol lam : ℝ) (S : Fin p → ℝ)
    (j : Fin p) : ℝ :=
  if S j ≤ tol * S 0 then 0 else S j / (S j ^ 2 + lam ^ 2)

/-- The scale factor applied to column `j` of `QSI` in the weighted core
(`multilinear.c:492-509`): zero below the threshold, otherwise `1/s_j`. -/
noncomputable def w_alpha {p : ℕ} [NeZero p] (tol : ℝ) (S : Fin p → ℝ)
    (j : Fin p) : ℝ :=
  if S j ≤ tol * S 0 then 0 else 1 / S j

/-- The effective rank computed by both cores: the number of singular values
not truncated by the tolerance test `s_j ≤ tol·s_0`. -/
noncomputable def effRank {p : ℕ} [NeZero p] (tol : ℝ) (S : Fin p → ℝ) : ℕ :=
  (Finset.univ.filter fun j => ¬ (S j ≤ tol * S 0)).card

/-- `multifit_linear_svd` (static, `multilinear.c:55-232`): the unweighted
solver core.  `svd` and `bal` are the external SVD and column-balancing
providers.  `aliased` models the C case `X == work->A` (the ridge2 call
path): after the factorization overwrites the workspace buffer with `U`,
the residual loop at line 191 then reads `U` instead of the original design
matrix.  The dimension checks of lines 67-93 are unrepresentable here
(shapes are carried by the types); the tolerance check of line 94 remains. -/
noncomputable def multifit_linear_svd {n p : ℕ} [NeZero p]
    (svd : Matrix (Fin n) (Fin p) ℝ → SVDResult n p)
    (bal : Matrix (Fin n) (Fin p) ℝ → Matrix (Fin n) (Fin p) ℝ × (Fin p → ℝ))
    (X : Matrix (Fin n) (Fin p) ℝ) (y : Fin n → ℝ)
    (tol : ℝ) (balance : Bool) (lambda : ℝ) (aliased : Bool) :
    Except Errno (FitResult p) :=
  if tol ≤ 0 then .error .EINVAL
  else
    let AD := if balance then bal X else (X, fun _ => (1 : ℝ))
    let r := svd AD.1
    let xt : Fin p → ℝ := r.Uᵀ *ᵥ y
    let QSI : Matrix (Fin p) (Fin p) ℝ :=
      r.V * Matrix.diagonal (reg_alpha tol lambda r.S)
    let p_eff : ℕ := effRank tol r.S
    let c0 : Fin p → ℝ := QSI *ᵥ xt
    let c : Fin p → ℝ := fun i => c0 i / AD.2 i
    let Xr : Matrix (Fin n) (Fin p) ℝ := if aliased then r.U else X
    let r2 : ℝ := ∑ i, (y i - ∑ j, Xr i j * c j) ^ 2
    let ridge : ℝ := ∑ i, lambda ^ 2 * c i ^ 2
    let s2 : ℝ := r2 / ((n - p_eff : ℕ) : ℝ)
    let cov : Matrix (Fin p) (Fin p) ℝ := fun i j =>
      (∑ k, QSI i k * QSI j k) * s2 / (AD.2 i * AD.2 j)
    .ok ⟨p_eff, c, cov, r2 + ridge⟩

/-- `gsl_multifit_linear` (`multilinear.c:234-247`): unweighted fit with
default tolerance `GSL_DBL_EPSILON`, balancing on, no regularization. -/
noncomputable def gsl_multifit_linear {n p : ℕ} [NeZero p]
    (svd : Matrix (Fin n) (Fin p) ℝ → SVDResult n p)
    (bal : Matrix (Fin n) (Fin p) ℝ → Matrix (Fin n) (Fin p) ℝ × (Fin p → ℝ))
    (X : Matrix (Fin n) (Fin p) ℝ) (y : Fin n → ℝ) :
    Except Errno (FitResult p) :=
  multifit_linear_svd svd bal X y GSL_DBL_EPSILON true 0 false

/-- `gsl_multifit_linear_svd` (`multilinear.c:251-265`): unweighted fit with
caller-supplied tolerance, balancing on. -/
noncomputable def gsl_multifit_linear_svd {n p : ℕ} [NeZero p]
    (svd : Matrix (Fin n) (Fin p) ℝ → SVDResult n p)
    (bal : Matrix (Fin n) (Fin p) ℝ → Matrix (Fin n) (Fin p) ℝ × (Fin p → ℝ))
    (X : Matrix (Fin n) (Fin p) ℝ) (y : Fin n → ℝ) (tol : ℝ) :
    Except Errno (FitResult p) :=
  multifit_linear_svd svd bal X y tol true 0 false

/-- `gsl_multifit_linear_usvd` (`multilinear.c:267-281`): unweighted fit with
caller-supplied tolerance, balancing off. -/
noncomputable def gsl_multifit_linear_usvd {n p : ℕ} [NeZero p]
    (svd : Matrix (Fin n) (Fin p) ℝ → SVDResult n p)
    (bal : Matrix (Fin n) (Fin p) ℝ → Matrix (Fin n) (Fin p) ℝ × (Fin p → ℝ))
    (X : Matrix (Fin n) (Fin p) ℝ) (y : Fin n → ℝ) (tol : ℝ) :
    Except Errno (FitResult p) :=
  multifit_linear_svd svd bal X y tol false 0 false

/-- `gsl_multifit_linear_ridge` (`multilinear.c:283-300`): scalar ridge
regression; balancing disabled, default tolerance. -/
noncomputable def gsl_multifit_linear_ridge {n p : ℕ} [NeZero p]
    (lambda : ℝ)
    (svd : Matrix (Fin n) (Fin p) ℝ → SVDResult n p)
    (bal : Matrix (Fin n) (Fin p) ℝ → Matrix (Fin n) (Fin p) ℝ × (Fin p → ℝ))
    (X : Matrix (Fin n) (Fin p) ℝ) (y : Fin n → ℝ) :
    Except Errno (FitResult p) :=
  multifit_linear_svd svd bal X y GSL_DBL_EPSILON false lambda false

/-- `gsl_multifit_linear_ridge2` (`multilinear.c:323-381`): diagonal-matrix
ridge regression.  Scales column `j` of `X` by `1/λ_j` into the workspace
buffer (failing with `EDOM` if some `λ_j = 0`), solves the transformed
system in place (`aliased := true`, `λ = 1`, balancing off), then divides
the solved coefficients elementwise by `λ`. -/
noncomputable def gsl_multifit_linear_ridge2 {n p : ℕ} [NeZero p]
    (svd : Matrix (Fin n) (Fin p) ℝ → SVDResult n p)
    (bal : Matrix (Fin n) (Fin p) ℝ → Matrix (Fin n) (Fin p) ℝ × (Fin p → ℝ))
    (lambda : Fin p → ℝ)
    (X : Matrix (Fin n) (Fin p) ℝ) (y : Fin n → ℝ) :
    Except Errno (FitResult p) :=
  if ∃ j, lambda j = 0 then .error .EDOM
  else
    let Xt : Matrix (Fin n) (Fin p) ℝ := fun i j => X i j * (1 / lambda j)
    match multifit_linear_svd svd bal Xt y GSL_DBL_EPSILON false 1 true with
    | .error e => .error e
    | .ok out => .ok ⟨out.rank, fun j => out.c j / lambda j, out.cov, out.chisq⟩

/-- `multifit_wlinear_svd` (static, `multilinear.c:385-565`): the weighted
solver core.  Each row `i` of the working copy of `X` and each response
entry are scaled by `√w_i` with negative weights clamped to zero
(lines 447-458 and 477-484); the residual sum of line 537 uses the raw,
unclamped weight.  The working copy is always a fresh copy of `X`
(line 445), so no aliasing flag arises here.  Unlike the unweighted core,
the guard chain of lines 396-427 consists exclusively of shape checks —
the weighted core performs **no** tolerance validation — and the shape
checks are unrepresentable in the typed embedding, so the routine always
reaches `return GSL_SUCCESS` (line 563). -/
noncomputable def multifit_wlinear_svd {n p : ℕ} [NeZero p]
    (svd : Matrix (Fin n) (Fin p) ℝ → SVDResult n p)
    (bal : Matrix (Fin n) (Fin p) ℝ → Matrix (Fin n) (Fin p) ℝ × (Fin p → ℝ))
    (X : Matrix (Fin n) (Fin p) ℝ) (w : Fin n → ℝ) (y : Fin n → ℝ)
    (tol : ℝ) (balance : Bool) :
    Except Errno (FitResult p) :=
  let A0 : Matrix (Fin n) (Fin p) ℝ := fun i j =>
    Real.sqrt (if w i < 0 then 0 else w i) * X i j
  let AD := if balance then bal A0 else (A0, fun _ => (1 : ℝ))
  let r := svd AD.1
  let t : Fin n → ℝ := fun i => Real.sqrt (if w i < 0 then 0 else w i) * y i
  let xt : Fin p → ℝ := r.Uᵀ *ᵥ t
  let QSI : Matrix (Fin p) (Fin p) ℝ :=
    r.V * Matrix.diagonal (w_alpha tol r.S)
  let p_eff : ℕ := effRank tol r.S
  let c0 : Fin p → ℝ := QSI *ᵥ xt
  let c : Fin p → ℝ := fun i => c0 i / AD.2 i
  let r2 : ℝ := ∑ i, w i * (y i - ∑ j, X i j * c j) ^ 2
  let cov : Matrix (Fin p) (Fin p) ℝ := fun i j =>
    (∑ k, QSI i k * QSI j k) / (AD.2 i * AD.2 j)
  .ok ⟨p_eff, c, cov, r2⟩

/-- `gsl_multifit_wlinear` (`multilinear.c:568-580`): weighted fit with
default tolerance, balancing on. -/
noncomputable def gsl_multifit_wlinear {n p : ℕ} [NeZero p]
    (svd : Matrix (Fin n) (Fin p) ℝ → SVDResult n p)
    (bal : Matrix (Fin n) (Fin p) ℝ → Matrix (Fin n) (Fin p) ℝ × (Fin p → ℝ))
    (X : Matrix (Fin n) (Fin p) ℝ) (w : Fin n → ℝ) (y : Fin n → ℝ) :
    Except Errno (FitResult p) :=
  multifit_wlinear_svd svd bal X w y GSL_DBL_EPSILON true

/-- `gsl_multifit_wlinear_svd` (`multilinear.c:582-596`): weighted fit with
caller-supplied tolerance, balancing on. -/
noncomputable def gsl_multifit_wlinear_svd {n p : ℕ} [NeZero p]
    (svd : Matrix (Fin n) (Fin p) ℝ → SVDResult n p)
    (bal : Matrix (Fin n) (Fin p) ℝ → Matrix (Fin n) (Fin p) ℝ × (Fin p → ℝ))
    (X : Matrix (Fin n) (Fin p) ℝ) (w : Fin n → ℝ) (y : Fin n → ℝ)
    (tol : ℝ) :
    Except Errno (FitResult p) :=
  multifit_wlinear_svd svd bal X w y tol true

/-- `gsl_multifit_wlinear_usvd` (`multilinear.c:598-612`): weighted fit with
caller-supplied tolerance, balancing off. -/
noncomputable def gsl_multifit_wlinear_usvd {n p : ℕ} [NeZero p]
    (svd : Matrix (Fin n) (Fin p) ℝ → SVDResult n p)
    (bal : Matrix (Fin n) (Fin p) ℝ → Matrix (Fin n) (Fin p) ℝ × (Fin p → ℝ))
    (X : Matrix (Fin n) (Fin p) ℝ) (w : Fin n → ℝ) (y : Fin n → ℝ)
    (tol : ℝ) :
    Except Errno (FitResult p) :=
  multifit_wlinear_svd svd bal X w y tol false

/-- The row-scaled design matrix `A = √w·X` built by the weighted core,
negative weights clamped to zero. -/
noncomputable def wdesign {n p : ℕ} (w : Fin n → ℝ)
    (X : Matrix (Fin n) (Fin p) ℝ) : Matrix (Fin n) (Fin p) ℝ :=
  fun i j => Real.sqrt (if w i < 0 then 0 else w i) * X i j

/-- The scaled response `t = √w·y` built by the weighted core. -/
noncomputable def wrhs {n : ℕ} (w y : Fin n → ℝ) : Fin n → ℝ :=
  fun i => Real.sqrt (if w i < 0 then 0 else w i) * y i

/-! ## Shared concrete instances for witnesses and counterexamples -/

/-- The trivial balancing oracle: scale factors all one, matrix unchanged.
A legitimate instantiation of the spec's column balancer. -/
noncomputable def balId {n p : ℕ} :
    Matrix (Fin n) (Fin p) ℝ → Matrix (Fin n) (Fin p) ℝ × (Fin p → ℝ) :=
  fun A => (A, fun _ => 1)

lemma isBalance_balId {n p : ℕ} (A : Matrix (Fin n) (Fin p) ℝ) :
    IsBalance (balId A) A := by
  refine ⟨fun _ => one_pos, fun i j => ?_⟩
  simp [balId]

/-- A trivial SVD oracle on 1×1 matrices, used only to instantiate
universally quantified statements whose conclusion does not depend on the
factorization (error paths). -/
noncomputable def svdTriv : Matrix (Fin 1) (Fin 1) ℝ → SVDResult 1 1 :=
  fun _ => ⟨1, fun _ => 1, 1⟩

/-! ## C2: which solver variants reject a nonpositive tolerance -/

/-- C2 (amended): only the unweighted solver validates the tolerance.  The
unweighted core and both unweighted tolerance-taking entry points fail with
`GSL_EINVAL` for `tol ≤ 0`, writing no output; the weighted core performs
no tolerance validation (its guards at `multilinear.c:396-427` are shape
checks only), so the weighted core and both weighted tolerance-taking
entry points succeed and write all outputs even for `tol ≤ 0`. -/
theorem tol_nonpositive_unweighted_only {n p : ℕ} [NeZero p]
    (svd : Matrix (Fin n) (Fin p) ℝ → SVDResult n p)
    (bal : Matrix (Fin n) (Fin p) ℝ → Matrix (Fin n) (Fin p) ℝ × (Fin p → ℝ))
    (X : Matrix (Fin n) (Fin p) ℝ) (w y : Fin n → ℝ)
    (tol lambda : ℝ) (balance aliased : Bool) (h : tol ≤ 0) :
    multifit_linear_svd svd bal X y tol balance lambda aliased
      = .error .EINVAL ∧
    gsl_multifit_linear_svd svd bal X y tol = .error .EINVAL ∧
    gsl_multifit_linear_usvd svd bal X y tol = .error .EINVAL ∧
    (∃ out, multifit_wlinear_svd svd bal X w y tol balance = .ok out) ∧
    (∃ out, gsl_multifit_wlinear_svd svd bal X w y tol = .ok out) ∧
    (∃ out, gsl_multifit_wlinear_usvd svd bal X w y tol = .ok out) := by
  refine ⟨?_, ?_, ?_, ⟨_, rfl⟩, ⟨_, rfl⟩, ⟨_, rfl⟩⟩ <;>
    simp [multifit_linear_svd, gsl_multifit_linear_svd,
      gsl_multifit_linear_usvd, if_pos h, h]

/-- Witness for the amended C2 at a concrete input: `tol = 0` on a 1×1
system. -/
theorem tol_nonpositive_unweighted_only_witness :
    multifit_linear_svd svdTriv balId 1 (fun _ => 0) 0 true 0 false
      = .error .EINVAL ∧
    gsl_multifit_linear_svd svdTriv balId 1 (fun _ => 0) 0 = .error .EINVAL ∧
    gsl_multifit_linear_usvd svdTriv balId 1 (fun _ => 0) 0 = .error .EINVAL ∧
    (∃ out, multifit_wlinear_svd svdTriv balId 1 (fun _ => 1) (fun _ => 0) 0
      true = .ok out) ∧
    (∃ out, gsl_multifit_wlinear_svd svdTriv balId 1 (fun _ => 1)
      (fun _ => 0) 0 = .ok out) ∧
    (∃ out, gsl_multifit_wlinear_usvd svdTriv balId 1 (fun _ => 1)
      (fun _ => 0) 0 = .ok out) :=
  tol_nonpositive_unweighted_only svdTriv balId 1 (fun _ => 1) (fun _ => 0)
    0 0 true false le_rfl

lemma isSVD_svdTriv_w :
    IsSVD (svdTriv (wdesign ![1] ![![1]])) (wdesign ![1] ![![1]]) := by
  have hw : wdesign ![1] ![![1]] = (![![1]] : Matrix (Fin 1) (Fin 1) ℝ) := by
    ext i j
    fin_cases i
    fin_cases j
    norm_num [wdesign]
  rw [hw]
  refine ⟨?_, ?_, ?_, ?_, ?_⟩
  · ext i j
    fin_cases i
    fin_cases j
    norm_num [svdTriv, Matrix.mul_apply, Fin.sum_univ_one, Matrix.diagonal,
      Matrix.one_apply]
  · ext i j
    fin_cases i
    fin_cases j
    norm_num [svdTriv, Matrix.mul_apply, Fin.sum_univ_one, Matrix.one_apply]
  · ext i j
    fin_cases i
    fin_cases j
    norm_num [svdTriv, Matrix.mul_apply, Fin.sum_univ_one, Matrix.one_apply]
  · intro i j _
    fin_cases i
    fin_cases j
    simp
  · intro j
    fin_cases j
    norm_num [svdTriv]

/-- Counterexample to C2 as stated: a weighted call with `tol = 0` on
`X = [[1]]`, `w = [1]`, `y = [1]` (with a valid SVD of the row-scaled
design matrix) does not fail — it succeeds and writes all outputs
(`rank = 1`, `c = [1]`, `chisq = 0`). -/
theorem weighted_tol_zero_succeeds :
    IsSVD (svdTriv (wdesign ![1] ![![1]])) (wdesign ![1] ![![1]]) ∧
    ∃ out, gsl_multifit_wlinear_usvd svdTriv balId ![![1]] ![1] ![1] 0
        = .ok out ∧
      out.rank = 1 ∧ out.c = ![1] ∧ out.chisq = 0 := by
  refine ⟨isSVD_svdTriv_w, ⟨1, ![1], ![![1]], 0⟩, ?_, rfl, rfl, rfl⟩
  rw [gsl_multifit_wlinear_usvd, multifit_wlinear_svd]
  rw [Except.ok.injEq]
  have hC : ¬ ((1 : ℝ) < 0) := by norm_num
  ext
  · simp only [effRank, svdTriv]
    rw [Finset.filter_true_of_mem, Finset.card_univ, Fintype.card_fin]
    intro j _
    norm_num
  · norm_num [svdTriv, w_alpha, Matrix.mulVec, Matrix.dotProduct,
      Fin.sum_univ_one, Matrix.mul_apply, Matrix.diagonal, Matrix.one_apply,
      Matrix.transpose_apply, if_neg hC, Fin.eq_zero]
  · norm_num [svdTriv, w_alpha, Matrix.mul_apply, Fin.sum_univ_one,
      Matrix.diagonal, Matrix.one_apply, Fin.eq_zero]
  · norm_num [svdTriv, w_alpha, Matrix.mulVec, Matrix.dotProduct,
      Fin.sum_univ_one, Matrix.mul_apply, Matrix.diagonal, Matrix.one_apply,
      Matrix.transpose_apply, if_neg hC, Fin.eq_zero]

/-! ## C7: a zero entry in the ridge2 penalty vector is rejected -/

/-- C7: if any entry of the ridge2 penalty vector is exactly zero, the call
fails with the domain error `GSL_EDOM`; the `Except` result carries no
`FitResult`, so no output is written. -/
theorem ridge2_zero_lambda_fails {n p : ℕ} [NeZero p]
    (svd : Matrix (Fin n) (Fin p) ℝ → SVDResult n p)
    (bal : Matrix (Fin n) (Fin p) ℝ → Matrix (Fin n) (Fin p) ℝ × (Fin p → ℝ))
    (lambda : Fin p → ℝ) (X : Matrix (Fin n) (Fin p) ℝ) (y : Fin n → ℝ)
    (h : ∃ j, lambda j = 0) :
    gsl_multifit_linear_ridge2 svd bal lambda X y = .error .EDOM := by
  rw [gsl_multifit_linear_ridge2, if_pos h]

/-- Witness for C7 at a concrete input: the all-zero penalty vector on a
1×1 system. -/
theorem ridge2_zero_lambda_fails_witness :
    gsl_multifit_linear_ridge2 svdTriv balId (fun _ => 0) 1 (fun _ => 0)
      = .error .EDOM :=
  ridge2_zero_lambda_fails svdTriv balId (fun _ => 0) 1 (fun _ => 0) ⟨0, rfl⟩

/-! ## C10: the weighted solver is the λ = 0 case of the regularized one -/

/-- C10: the weighted core scales every retained pseudo-inverse column by
exactly `1/s_j`, which is the `λ = 0` case of the regularized construction
`s_j/(s_j² + λ²)` used by the unweighted core, and every weighted public
entry point delegates to the weighted core, which takes no `λ` parameter:
weighted ridge fits are impossible through this interface. -/
theorem weighted_solver_unregularized {n p : ℕ} [NeZero p]
    (svd : Matrix (Fin n) (Fin p) ℝ → SVDResult n p)
    (bal : Matrix (Fin n) (Fin p) ℝ → Matrix (Fin n) (Fin p) ℝ × (Fin p → ℝ))
    (X : Matrix (Fin n) (Fin p) ℝ) (w y : Fin n → ℝ)
    (tol : ℝ) (S : Fin p → ℝ) :
    (∀ j, w_alpha tol S j = reg_alpha tol 0 S j) ∧
    gsl_multifit_wlinear svd bal X w y
      = multifit_wlinear_svd svd bal X w y GSL_DBL_EPSILON true ∧
    gsl_multifit_wlinear_svd svd bal X w y tol
      = multifit_wlinear_svd svd bal X w y tol true ∧
    gsl_multifit_wlinear_usvd svd bal X w y tol
      = multifit_wlinear_svd svd bal X w y tol false := by
  refine ⟨fun j => ?_, rfl, rfl, rfl⟩
  rw [w_alpha, reg_alpha]
  split
  · rfl
  · rcases eq_or_ne (S j) 0 with h | h
    · simp [h]
    · rw [pow_two, pow_two, mul_zero, add_zero, div_self_mul_self', one_div]

/-- Witness for C10 at a concrete instance (`n = p = 1`, `S = [2]`,
`tol = 1/2`). -/
theorem weighted_solver_unregularized_witness :
    (∀ j, w_alpha (1 / 2) (![2] : Fin 1 → ℝ) j
      = reg_alpha (1 / 2) 0 (![2] : Fin 1 → ℝ) j) ∧
    gsl_multifit_wlinear svdTriv balId 1 (fun _ => 1) (fun _ => 0)
      = multifit_wlinear_svd svdTriv balId 1 (fun _ => 1) (fun _ => 0)
          GSL_DBL_EPSILON true ∧
    gsl_multifit_wlinear_svd svdTriv balId 1 (fun _ => 1) (fun _ => 0) (1 / 2)
      = multifit_wlinear_svd svdTriv balId 1 (fun _ => 1) (fun _ => 0)
          (1 / 2) true ∧
    gsl_multifit_wlinear_usvd svdTriv balId 1 (fun _ => 1) (fun _ => 0) (1 / 2)
      = multifit_wlinear_svd svdTriv balId 1 (fun _ => 1) (fun _ => 0)
          (1 / 2) false :=
  weighted_solver_unregularized svdTriv balId 1 (fun _ => 1) (fun _ => 0)
    (1 / 2) ![2]

/-! ## C9: zero residual degrees of freedom does not fail fast -/

/-- C9: the unweighted core has no guard against `rank = n`: once the
tolerance is positive it always returns success, and when the returned rank
equals `n` the divisor `n - rank` of the noise-variance estimate
`s² = r2/(n - rank)` is zero (the C code divides by it regardless; in IEEE
arithmetic this produces an infinite or NaN covariance, which the real-number
model renders as the zero denominator shown here). -/
theorem rank_eq_n_no_fail_fast {n p : ℕ} [NeZero p]
    (svd : Matrix (Fin n) (Fin p) ℝ → SVDResult n p)
    (bal : Matrix (Fin n) (Fin p) ℝ → Matrix (Fin n) (Fin p) ℝ × (Fin p → ℝ))
    (X : Matrix (Fin n) (Fin p) ℝ) (y : Fin n → ℝ)
    (tol lambda : ℝ) (balance aliased : Bool) (htol : 0 < tol) :
    (∃ out, multifit_linear_svd svd bal X y tol balance lambda aliased
        = .ok out) ∧
    (∀ out, multifit_linear_svd svd bal X y tol balance lambda aliased
        = .ok out → out.rank = n → ((n - out.rank : ℕ) : ℝ) = 0) := by
  constructor
  · exact ⟨_, by rw [multifit_linear_svd, if_neg (not_le.mpr htol)]⟩
  · intro out _ hrank
    rw [hrank, Nat.sub_self, Nat.cast_zero]

/-- Witness for C9 at a concrete input (`n = p = 1`, `X = [[1]]`,
`tol = 1/2`): the hypothesis `0 < tol` holds and the theorem applies. -/
theorem rank_eq_n_no_fail_fast_witness :
    (∃ out, multifit_linear_svd svdTriv balId 1 (fun _ => 0) (1 / 2) false 0
        false = .ok out) ∧
    (∀ out, multifit_linear_svd svdTriv balId 1 (fun _ => 0) (1 / 2) false 0
        false = .ok out → out.rank = 1 → ((1 - out.rank : ℕ) : ℝ) = 0) :=
  rank_eq_n_no_fail_fast svdTriv balId 1 (fun _ => 0) (1 / 2) 0 false false
    (by norm_num)

/-! ## C3: negative weights in the weighted solver -/

/-- A concrete SVD oracle for the weighted counterexample: the valid SVD of
the row-scaled design matrix `[[1],[0]]`. -/
noncomputable def svdW10 : Matrix (Fin 2) (Fin 1) ℝ → SVDResult 2 1 :=
  fun _ => ⟨![![1], ![0]], ![1], ![![1]]⟩

lemma isSVD_svdW10 : IsSVD (svdW10 ![![1], ![0]]) ![![1], ![0]] := by
  refine ⟨?_, ?_, ?_, ?_, ?_⟩
  · ext i j
    fin_cases i <;> fin_cases j <;>
      simp [svdW10, Matrix.mul_apply, Fin.sum_univ_one, Matrix.diagonal]
  · ext i j
    fin_cases i <;> fin_cases j <;>
      simp [svdW10, Matrix.mul_apply, Fin.sum_univ_two]
  · ext i j
    fin_cases i <;> fin_cases j <;>
      simp [svdW10, Matrix.mul_apply, Fin.sum_univ_one]
  · intro i j _
    fin_cases i <;> fin_cases j <;> simp [svdW10]
  · intro j
    fin_cases j <;> norm_num [svdW10]

/-- Evaluation of the public weighted solver (balancing off) on
`X = [[1],[1]]`, `w = [1, -1]`, `y = [0, 1]`, `tol = 1/2`: the negative
weight is clamped in the scaling steps (so `c = 0`), but the residual sum
uses the raw weight `-1`, and the returned `chisq` is `-1`. -/
lemma wlinear_neg_weight_run :
    gsl_multifit_wlinear_usvd svdW10 balId ![![1], ![1]] ![1, -1] ![0, 1]
      (1 / 2) = .ok ⟨1, ![0], ![![1]], -1⟩ := by
  rw [gsl_multifit_wlinear_usvd, multifit_wlinear_svd]
  rw [Except.ok.injEq]
  have hC : ¬ ((1 : ℝ) < 0) := by norm_num
  have hw1 : ((-1 : ℝ) < 0) := by norm_num
  ext
  · -- rank
    simp only [effRank, svdW10]
    rw [Finset.filter_true_of_mem, Finset.card_univ, Fintype.card_fin]
    intro j _
    fin_cases j <;> norm_num
  · -- coefficients
    simp [svdW10, w_alpha, Matrix.mulVec, Matrix.dotProduct,
      Fin.sum_univ_two, Fin.sum_univ_one, Matrix.mul_apply, if_neg hC,
      if_pos hw1]
  · -- covariance
    norm_num [svdW10, w_alpha, Matrix.mul_apply, Fin.sum_univ_one,
      Matrix.diagonal]
  · -- chisq
    norm_num [svdW10, w_alpha, Matrix.mulVec, Matrix.dotProduct,
      Fin.sum_univ_two, Fin.sum_univ_one, Matrix.mul_apply, if_neg hC,
      if_pos hw1]

/-- C3 (amended): negative weights are clamped to zero in the design- and
response-scaling steps of the weighted solver, but the residual sum of
`multilinear.c:529-540` uses the raw weights: for every successful weighted
solve, `chisq = Σ w_i·(y_i − (X·c)_i)²` with the unclamped `w_i`, so a
negatively weighted observation contributes its (negative) weighted square
to `chisq` instead of nothing. -/
theorem weighted_chisq_raw_weights {n p : ℕ} [NeZero p]
    (svd : Matrix (Fin n) (Fin p) ℝ → SVDResult n p)
    (bal : Matrix (Fin n) (Fin p) ℝ → Matrix (Fin n) (Fin p) ℝ × (Fin p → ℝ))
    (X : Matrix (Fin n) (Fin p) ℝ) (w y : Fin n → ℝ)
    (tol : ℝ) (balance : Bool) (out : FitResult p)
    (h : multifit_wlinear_svd svd bal X w y tol balance = .ok out) :
    out.chisq = ∑ i, w i * (y i - ∑ j, X i j * out.c j) ^ 2 := by
  unfold multifit_wlinear_svd at h
  rw [Except.ok.injEq] at h
  subst h
  rfl

/-- Witness for the amended C3 at the concrete negative-weight input: the
raw-weight residual sum there is `-1`, and so is the returned `chisq`. -/
theorem weighted_chisq_raw_weights_witness :
    (⟨1, ![0], ![![1]], -1⟩ : FitResult 1).chisq
      = ∑ i, (![1, -1] : Fin 2 → ℝ) i *
          ((![0, 1] : Fin 2 → ℝ) i -
            ∑ j, (![![1], ![1]] : Matrix (Fin 2) (Fin 1) ℝ) i j *
              (⟨1, ![0], ![![1]], -1⟩ : FitResult 1).c j) ^ 2 :=
  weighted_chisq_raw_weights svdW10 balId ![![1], ![1]] ![1, -1] ![0, 1]
    (1 / 2) false ⟨1, ![0], ![![1]], -1⟩ wlinear_neg_weight_run

/-- Counterexample to C3 as stated: on `X = [[1],[1]]`, `w = [1, -1]`,
`y = [0, 1]`, `tol = 1/2`, with a valid SVD of the (clamped) row-scaled
design matrix `[[1],[0]]`, the weighted solver succeeds with
`chisq = -1`, whereas treating the negative weight as zero in the residual
sum — as the claim asserts — would give `chisq = 0`: the negatively
weighted observation does contribute to `chisq`. -/
theorem weighted_negative_weight_contributes :
    (fun i j => Real.sqrt
        (if (![1, -1] : Fin 2 → ℝ) i < 0 then 0 else (![1, -1] : Fin 2 → ℝ) i)
        * (![![1], ![1]] : Matrix (Fin 2) (Fin 1) ℝ) i j)
      = (![![1], ![0]] : Matrix (Fin 2) (Fin 1) ℝ) ∧
    IsSVD (svdW10 ![![1], ![0]]) ![![1], ![0]] ∧
    ∃ out,
      gsl_multifit_wlinear_usvd svdW10 balId ![![1], ![1]] ![1, -1] ![0, 1]
        (1 / 2) = .ok out ∧
      out.chisq ≠ ∑ i,
        (if (![1, -1] : Fin 2 → ℝ) i < 0 then 0 else (![1, -1] : Fin 2 → ℝ) i)
          * ((![0, 1] : Fin 2 → ℝ) i -
              ∑ j, (![![1], ![1]] : Matrix (Fin 2) (Fin 1) ℝ) i j * out.c j)
            ^ 2 := by
  refine ⟨?_, isSVD_svdW10, ⟨1, ![0], ![![1]], -1⟩, wlinear_neg_weight_run, ?_⟩
  · ext i j
    fin_cases i <;> fin_cases j <;>
      norm_num
  · norm_num [Fin.sum_univ_two, Fin.sum_univ_one]

/-! ## C4: which matrix the residual sum reads -/

/-- A concrete SVD oracle: the valid SVD of the 1×1 matrix `[[2]]`. -/
noncomputable def svdM2 : Matrix (Fin 1) (Fin 1) ℝ → SVDResult 1 1 :=
  fun _ => ⟨![![1]], ![2], ![![1]]⟩

lemma isSVD_svdM2 : IsSVD (svdM2 ![![2]]) ![![2]] := by
  refine ⟨?_, ?_, ?_, ?_, ?_⟩
  · ext i j
    fin_cases i; fin_cases j
    simp [svdM2, Matrix.mul_apply, Fin.sum_univ_one, Matrix.diagonal]
  · ext i j
    fin_cases i; fin_cases j
    simp [svdM2, Matrix.mul_apply, Fin.sum_univ_one]
  · ext i j
    fin_cases i; fin_cases j
    simp [svdM2, Matrix.mul_apply, Fin.sum_univ_one]
  · intro i j _
    fin_cases i; fin_cases j; simp
  · intro j
    fin_cases j; norm_num [svdM2]

lemma eps_lt : ¬ ((2 : ℝ) ≤ GSL_DBL_EPSILON * 2) := by
  rw [GSL_DBL_EPSILON]
  norm_num

/-- Evaluation of the unweighted core on `X = [[2]]`, `y = [1]`, `λ = 1`,
balancing off, non-aliased: the residual is computed against the original
design matrix, giving `chisq = (1 − 2·(2/5))² + (2/5)² = 1/5`. -/
lemma linear_m2_run_plain :
    multifit_linear_svd svdM2 balId ![![2]] ![1] GSL_DBL_EPSILON false 1 false
      = .ok ⟨1, ![2 / 5], ![![0]], 1 / 5⟩ := by
  rw [multifit_linear_svd,
    if_neg (not_le.mpr (by rw [GSL_DBL_EPSILON]; norm_num))]
  rw [Except.ok.injEq]
  ext
  · simp only [effRank, svdM2]
    rw [Finset.filter_true_of_mem, Finset.card_univ, Fintype.card_fin]
    intro j _
    fin_cases j
    exact eps_lt
  · norm_num [svdM2, reg_alpha, Matrix.mulVec, Matrix.dotProduct,
      Fin.sum_univ_one, Matrix.mul_apply, if_neg eps_lt, GSL_DBL_EPSILON]
  · norm_num [svdM2, reg_alpha, Matrix.mulVec, Matrix.dotProduct,
      Fin.sum_univ_one, Matrix.mul_apply, Matrix.diagonal, if_neg eps_lt,
      GSL_DBL_EPSILON, effRank, Finset.filter_true_of_mem (fun j _ => by fin_cases j; exact eps_lt :
        ∀ j ∈ Finset.univ, ¬ ((![(2 : ℝ)] : Fin 1 → ℝ) j ≤ GSL_DBL_EPSILON * ![(2 : ℝ)] 0))]
  · norm_num [svdM2, reg_alpha, Matrix.mulVec, Matrix.dotProduct,
      Fin.sum_univ_one, Matrix.mul_apply, if_neg eps_lt, GSL_DBL_EPSILON]

/-- Evaluation of the unweighted core on the same input but aliased (the
ridge2 call shape): the residual is computed against the `U` factor that
overwrote the buffer, giving `chisq = (1 − 1·(2/5))² + (2/5)² = 13/25`. -/
lemma linear_m2_run_aliased :
    multifit_linear_svd svdM2 balId ![![2]] ![1] GSL_DBL_EPSILON false 1 true
      = .ok ⟨1, ![2 / 5], ![![0]], 13 / 25⟩ := by
  rw [multifit_linear_svd,
    if_neg (not_le.mpr (by rw [GSL_DBL_EPSILON]; norm_num))]
  rw [Except.ok.injEq]
  ext
  · simp only [effRank, svdM2]
    rw [Finset.filter_true_of_mem, Finset.card_univ, Fintype.card_fin]
    intro j _
    fin_cases j
    exact eps_lt
  · norm_num [svdM2, reg_alpha, Matrix.mulVec, Matrix.dotProduct,
      Fin.sum_univ_one, Matrix.mul_apply, if_neg eps_lt, GSL_DBL_EPSILON]
  · norm_num [svdM2, reg_alpha, Matrix.mulVec, Matrix.dotProduct,
      Fin.sum_univ_one, Matrix.mul_apply, Matrix.diagonal, if_neg eps_lt,
      GSL_DBL_EPSILON, effRank, Finset.filter_true_of_mem (fun j _ => by fin_cases j; exact eps_lt :
        ∀ j ∈ Finset.univ, ¬ ((![(2 : ℝ)] : Fin 1 → ℝ) j ≤ GSL_DBL_EPSILON * ![(2 : ℝ)] 0))]
  · norm_num [svdM2, reg_alpha, Matrix.mulVec, Matrix.dotProduct,
      Fin.sum_univ_one, Matrix.mul_apply, if_neg eps_lt, GSL_DBL_EPSILON]

/-- Evaluation of the ridge2 adapter on `λ = [1]`, `X = [[2]]`, `y = [1]`:
it performs the aliased core call above and divides `c` by `λ = 1`. -/
lemma ridge2_m2_run :
    gsl_multifit_linear_ridge2 svdM2 balId ![1] ![![2]] ![1]
      = .ok ⟨1, ![2 / 5], ![![0]], 13 / 25⟩ := by
  rw [gsl_multifit_linear_ridge2,
    if_neg (by rintro ⟨j, hj⟩; fin_cases j; norm_num at hj)]
  have hXt : (fun i j => (![![2]] : Matrix (Fin 1) (Fin 1) ℝ) i j *
      (1 / (![1] : Fin 1 → ℝ) j)) = (![![2]] : Matrix (Fin 1) (Fin 1) ℝ) := by
    ext i j
    fin_cases i; fin_cases j
    norm_num
  rw [hXt]
  simp only [linear_m2_run_aliased]
  rw [Except.ok.injEq]
  ext
  · rfl
  · norm_num
  · rfl
  · rfl

/-- C4 (amended): for every successful unweighted solve where the design
matrix does not alias the workspace matrix, the returned `chisq` is the
residual sum of squares against the original design matrix plus the ridge
penalty; in the aliased in-place call (the ridge2 path) the factorization
has overwritten the shared buffer with `U`, so the residual sum is computed
against `U` instead of the original design matrix. -/
theorem unweighted_chisq_residual_basis {n p : ℕ} [NeZero p]
    (svd : Matrix (Fin n) (Fin p) ℝ → SVDResult n p)
    (bal : Matrix (Fin n) (Fin p) ℝ → Matrix (Fin n) (Fin p) ℝ × (Fin p → ℝ))
    (X : Matrix (Fin n) (Fin p) ℝ) (y : Fin n → ℝ)
    (tol lambda : ℝ) (balance : Bool) (out : FitResult p) :
    (multifit_linear_svd svd bal X y tol balance lambda false = .ok out →
      out.chisq = (∑ i, (y i - ∑ j, X i j * out.c j) ^ 2) +
        ∑ i, lambda ^ 2 * out.c i ^ 2) ∧
    (multifit_linear_svd svd bal X y tol balance lambda true = .ok out →
      out.chisq = (∑ i, (y i -
          ∑ j, (svd (if balance then bal X else (X, fun _ => 1)).1).U i j
            * out.c j) ^ 2) +
        ∑ i, lambda ^ 2 * out.c i ^ 2) := by
  constructor <;>
  · intro h
    unfold multifit_linear_svd at h
    split at h
    · exact absurd h (by simp)
    · rw [Except.ok.injEq] at h
      subst h
      rfl

/-- Witness for the amended C4: both conjuncts discharged at the concrete
1×1 instance, non-aliased (`chisq = 1/5`) and aliased (`chisq = 13/25`). -/
theorem unweighted_chisq_residual_basis_witness :
    ((⟨1, ![2 / 5], ![![0]], 1 / 5⟩ : FitResult 1).chisq
      = (∑ i, ((![1] : Fin 1 → ℝ) i -
          ∑ j, (![![2]] : Matrix (Fin 1) (Fin 1) ℝ) i j *
            (⟨1, ![2 / 5], ![![0]], 1 / 5⟩ : FitResult 1).c j) ^ 2) +
        ∑ i, (1 : ℝ) ^ 2 * (⟨1, ![2 / 5], ![![0]], 1 / 5⟩ : FitResult 1).c i ^ 2) ∧
    ((⟨1, ![2 / 5], ![![0]], 13 / 25⟩ : FitResult 1).chisq
      = (∑ i, ((![1] : Fin 1 → ℝ) i -
          ∑ j, (svdM2 (if false then balId ![![2]]
              else (![![2]], fun _ => 1)).1).U i j *
            (⟨1, ![2 / 5], ![![0]], 13 / 25⟩ : FitResult 1).c j) ^ 2) +
        ∑ i, (1 : ℝ) ^ 2 *
          (⟨1, ![2 / 5], ![![0]], 13 / 25⟩ : FitResult 1).c i ^ 2) :=
  ⟨(unweighted_chisq_residual_basis svdM2 balId ![![2]] ![1] GSL_DBL_EPSILON 1
      false ⟨1, ![2 / 5], ![![0]], 1 / 5⟩).1 linear_m2_run_plain,
   (unweighted_chisq_residual_basis svdM2 balId ![![2]] ![1] GSL_DBL_EPSILON 1
      false ⟨1, ![2 / 5], ![![0]], 13 / 25⟩).2 linear_m2_run_aliased⟩

/-- Counterexample to C4 as stated: in the in-place call used by the ridge2
adapter (`X = [[2]]`, `y = [1]`, penalty vector `[1]`, valid SVD supplied),
the solve succeeds with `chisq = 13/25`, but the residual sum of squares of
the original design matrix plus the ridge penalty is
`(1 − 2·(2/5))² + (2/5)² = 1/5 ≠ 13/25`. -/
theorem aliased_chisq_not_original_rss :
    IsSVD (svdM2 ![![2]]) ![![2]] ∧
    ∃ out,
      multifit_linear_svd svdM2 balId ![![2]] ![1] GSL_DBL_EPSILON false 1 true
        = .ok out ∧
      gsl_multifit_linear_ridge2 svdM2 balId ![1] ![![2]] ![1] = .ok out ∧
      out.chisq ≠ (∑ i, ((![1] : Fin 1 → ℝ) i -
          ∑ j, (![![2]] : Matrix (Fin 1) (Fin 1) ℝ) i j * out.c j) ^ 2) +
        ∑ i, (1 : ℝ) ^ 2 * out.c i ^ 2 := by
  refine ⟨isSVD_svdM2, ⟨1, ![2 / 5], ![![0]], 13 / 25⟩, linear_m2_run_aliased,
    ridge2_m2_run, ?_⟩
  norm_num [Fin.sum_univ_one]

/-! ## Normal-equation characterization of the solver's coefficients

The solver computes `c = D⁻¹ · V · diag(α) · Uᵀ · y` from the SVD of the
balanced matrix `A₁ = X·D⁻¹`.  When no singular value is truncated,
`α_j·(s_j² + λ²) = s_j`, and `c` satisfies the regularized normal equations
`(Xᵀ·X + λ²·D²)·c = Xᵀ·y`, whose solution is unique when all singular
values are nonzero.  These lemmas drive the proofs of the concrete-scenario,
ridge2-equivalence and weighted-equivalence claims. -/

lemma isSVD_transpose_factor {n p : ℕ} {r : SVDResult n p}
    {A : Matrix (Fin n) (Fin p) ℝ} (h : IsSVD r A) :
    Aᵀ = r.V * Matrix.diagonal r.S * r.Uᵀ := by
  rw [h.1, Matrix.transpose_mul, Matrix.transpose_mul,
    Matrix.transpose_transpose, Matrix.diagonal_transpose, Matrix.mul_assoc]

lemma isSVD_gram {n p : ℕ} {r : SVDResult n p}
    {A : Matrix (Fin n) (Fin p) ℝ} (h : IsSVD r A) :
    Aᵀ * A = r.V * Matrix.diagonal (fun j => r.S j * r.S j) * r.Vᵀ := by
  have e1 : r.V * Matrix.diagonal r.S * r.Uᵀ *
      (r.U * Matrix.diagonal r.S * r.Vᵀ)
      = r.V * Matrix.diagonal r.S * (r.Uᵀ * r.U) *
        (Matrix.diagonal r.S * r.Vᵀ) := by
    simp only [Matrix.mul_assoc]
  rw [isSVD_transpose_factor h, h.1, e1, h.2.1, Matrix.mul_one]
  rw [show r.V * Matrix.diagonal r.S * (Matrix.diagonal r.S * r.Vᵀ)
      = r.V * (Matrix.diagonal r.S * Matrix.diagonal r.S) * r.Vᵀ by
    simp only [Matrix.mul_assoc]]
  rw [Matrix.diagonal_mul_diagonal]

lemma isSVD_VVt {n p : ℕ} {r : SVDResult n p}
    {A : Matrix (Fin n) (Fin p) ℝ} (h : IsSVD r A) :
    r.V * r.Vᵀ = 1 :=
  Matrix.mul_eq_one_comm.mp h.2.2.1

/-- The central algebraic identity: if `α_j·(s_j² + λ²) = s_j` for every
`j`, then multiplying the regularized Gram matrix by the solver's
pseudo-inverse `V·diag(α)·Uᵀ` recovers `A₁ᵀ`. -/
lemma pinv_identity {n p : ℕ} {r : SVDResult n p}
    {A₁ : Matrix (Fin n) (Fin p) ℝ} (h : IsSVD r A₁) (lam2 : ℝ)
    (α : Fin p → ℝ) (hα : ∀ j, α j * (r.S j ^ 2 + lam2) = r.S j) :
    (A₁ᵀ * A₁ + lam2 • (1 : Matrix (Fin p) (Fin p) ℝ)) *
      (r.V * Matrix.diagonal α * r.Uᵀ) = A₁ᵀ := by
  have hdiag : Matrix.diagonal (fun j => r.S j * r.S j) * Matrix.diagonal α
      + lam2 • Matrix.diagonal α = Matrix.diagonal r.S := by
    rw [Matrix.diagonal_mul_diagonal, ← Matrix.diagonal_smul,
      Matrix.diagonal_add]
    refine congrArg Matrix.diagonal (funext fun j => ?_)
    simp only [Pi.smul_apply, smul_eq_mul]
    linear_combination hα j
  have expand : (A₁ᵀ * A₁ + lam2 • (1 : Matrix (Fin p) (Fin p) ℝ)) *
      (r.V * Matrix.diagonal α * r.Uᵀ)
      = r.V * (Matrix.diagonal (fun j => r.S j * r.S j) * Matrix.diagonal α
          + lam2 • Matrix.diagonal α) * r.Uᵀ := by
    rw [isSVD_gram h, Matrix.add_mul, Matrix.smul_mul, Matrix.one_mul,
      Matrix.mul_add, Matrix.add_mul]
    congr 1
    · have e1 : r.V * Matrix.diagonal (fun j => r.S j * r.S j) * r.Vᵀ *
          (r.V * Matrix.diagonal α * r.Uᵀ)
          = r.V * Matrix.diagonal (fun j => r.S j * r.S j) * (r.Vᵀ * r.V) *
            Matrix.diagonal α * r.Uᵀ := by
        simp only [Matrix.mul_assoc]
      rw [e1, h.2.2.1, Matrix.mul_one]
      simp only [Matrix.mul_assoc]
    · simp only [Matrix.mul_smul, Matrix.smul_mul]
  rw [expand, hdiag]
  exact (isSVD_transpose_factor h).symm

/-- If no singular value is truncated (so `α` satisfies
`α_j·(s_j² + λ²) = s_j`), the coefficient vector computed by the solver
from the SVD of the balanced matrix `A₁ = X·D⁻¹` satisfies the regularized
normal equations `(Xᵀ·X + λ²·diag(D²))·c = Xᵀ·y` of the unbalanced
system. -/
lemma regularized_normal_equation {n p : ℕ} {r : SVDResult n p}
    {A₁ X : Matrix (Fin n) (Fin p) ℝ} {D : Fin p → ℝ}
    (hsvd : IsSVD r A₁) (hD : ∀ j, D j ≠ 0)
    (hA₁ : ∀ i j, A₁ i j = X i j / D j)
    (lam2 : ℝ) (α : Fin p → ℝ) (hα : ∀ j, α j * (r.S j ^ 2 + lam2) = r.S j)
    (y : Fin n → ℝ) :
    (Xᵀ * X + lam2 • Matrix.diagonal (fun j => D j ^ 2)) *ᵥ
        (fun i => ((r.V * Matrix.diagonal α) *ᵥ (r.Uᵀ *ᵥ y)) i / D i)
      = Xᵀ *ᵥ y := by
  have hX : X = A₁ * Matrix.diagonal D := by
    ext i j
    rw [Matrix.mul_diagonal, hA₁, div_mul_cancel₀ _ (hD j)]
  have hDD : Matrix.diagonal D * Matrix.diagonal (fun j => (D j)⁻¹) = 1 := by
    rw [Matrix.diagonal_mul_diagonal]
    rw [show (fun j => D j * (D j)⁻¹) = fun _ => (1 : ℝ) from
      funext fun j => mul_inv_cancel₀ (hD j)]
    exact Matrix.diagonal_one
  have hc : (fun i => ((r.V * Matrix.diagonal α) *ᵥ (r.Uᵀ *ᵥ y)) i / D i)
      = (Matrix.diagonal (fun j => (D j)⁻¹) *
          (r.V * Matrix.diagonal α * r.Uᵀ)) *ᵥ y := by
    funext i
    conv_lhs => rw [Matrix.mulVec_mulVec]
    conv_rhs => rw [← Matrix.mulVec_mulVec]
    rw [Matrix.mulVec_diagonal, div_eq_inv_mul]
  have hM : Xᵀ * X + lam2 • Matrix.diagonal (fun j => D j ^ 2)
      = Matrix.diagonal D *
          (A₁ᵀ * A₁ + lam2 • (1 : Matrix (Fin p) (Fin p) ℝ)) *
          Matrix.diagonal D := by
    rw [Matrix.mul_add, Matrix.add_mul, hX, Matrix.transpose_mul,
      Matrix.diagonal_transpose]
    congr 1
    · simp only [Matrix.mul_assoc]
    · rw [Matrix.mul_smul, Matrix.mul_one, Matrix.smul_mul,
        Matrix.diagonal_mul_diagonal]
      refine congrArg (lam2 • Matrix.diagonal ·) (funext fun j => ?_)
      exact pow_two (D j)
  have key := pinv_identity hsvd lam2 α hα
  have hfull : (Xᵀ * X + lam2 • Matrix.diagonal (fun j => D j ^ 2)) *
      (Matrix.diagonal (fun j => (D j)⁻¹) *
        (r.V * Matrix.diagonal α * r.Uᵀ)) = Xᵀ := by
    rw [hM]
    have e1 : Matrix.diagonal D *
        (A₁ᵀ * A₁ + lam2 • (1 : Matrix (Fin p) (Fin p) ℝ)) *
        Matrix.diagonal D *
        (Matrix.diagonal (fun j => (D j)⁻¹) *
          (r.V * Matrix.diagonal α * r.Uᵀ))
        = Matrix.diagonal D *
          ((A₁ᵀ * A₁ + lam2 • (1 : Matrix (Fin p) (Fin p) ℝ)) *
            ((Matrix.diagonal D * Matrix.diagonal (fun j => (D j)⁻¹)) *
              (r.V * Matrix.diagonal α * r.Uᵀ))) := by
      simp only [Matrix.mul_assoc]
    rw [e1, hDD, Matrix.one_mul, key, hX, Matrix.transpose_mul,
      Matrix.diagonal_transpose]
  rw [hc, Matrix.mulVec_mulVec, hfull]

/-- When every singular value of the balanced design matrix is nonzero, the
regularized normal equations determine the coefficient vector uniquely. -/
lemma normal_solution_unique {n p : ℕ} {r : SVDResult n p}
    {A₁ X : Matrix (Fin n) (Fin p) ℝ} {D : Fin p → ℝ}
    (hsvd : IsSVD r A₁) (hD : ∀ j, D j ≠ 0)
    (hA₁ : ∀ i j, A₁ i j = X i j / D j)
    (hS : ∀ j, r.S j ≠ 0) {lam2 : ℝ} (hlam2 : 0 ≤ lam2)
    {c₁ c₂ : Fin p → ℝ}
    (h : (Xᵀ * X + lam2 • Matrix.diagonal (fun j => D j ^ 2)) *ᵥ c₁
       = (Xᵀ * X + lam2 • Matrix.diagonal (fun j => D j ^ 2)) *ᵥ c₂) :
    c₁ = c₂ := by
  set M : Matrix (Fin p) (Fin p) ℝ :=
    Xᵀ * X + lam2 • Matrix.diagonal (fun j => D j ^ 2) with hMdef
  set v : Fin p → ℝ := c₁ - c₂ with hvdef
  have hMv : M *ᵥ v = 0 := by
    rw [hvdef, Matrix.mulVec_sub, h, sub_self]
  have hexp : v ⬝ᵥ (M *ᵥ v)
      = (X *ᵥ v) ⬝ᵥ (X *ᵥ v) + lam2 * ∑ j, D j ^ 2 * v j ^ 2 := by
    rw [hMdef, Matrix.add_mulVec, dotProduct_add]
    congr 1
    · rw [← Matrix.mulVec_mulVec, Matrix.dotProduct_mulVec,
        Matrix.vecMul_transpose]
    · rw [Matrix.smul_mulVec_assoc, dotProduct_smul, smul_eq_mul]
      congr 1
      simp only [dotProduct, Matrix.mulVec_diagonal]
      refine Finset.sum_congr rfl fun j _ => ?_
      ring
  have hzero : (X *ᵥ v) ⬝ᵥ (X *ᵥ v) + lam2 * ∑ j, D j ^ 2 * v j ^ 2 = 0 := by
    rw [← hexp, hMv, dotProduct_zero]
  have ht1nn : 0 ≤ (X *ᵥ v) ⬝ᵥ (X *ᵥ v) := by
    simp only [dotProduct]
    exact Finset.sum_nonneg fun i _ => mul_self_nonneg _
  have ht2nn : 0 ≤ lam2 * ∑ j, D j ^ 2 * v j ^ 2 :=
    mul_nonneg hlam2 (Finset.sum_nonneg fun j _ =>
      mul_nonneg (sq_nonneg _) (sq_nonneg _))
  have hXv : X *ᵥ v = 0 := by
    have h1 : (X *ᵥ v) ⬝ᵥ (X *ᵥ v) = 0 := le_antisymm (by linarith) ht1nn
    simp only [dotProduct] at h1
    funext i
    have := (Finset.sum_eq_zero_iff_of_nonneg
      (fun i _ => mul_self_nonneg ((X *ᵥ v) i))).mp h1 i (Finset.mem_univ i)
    exact mul_self_eq_zero.mp this
  -- transport through the balancing factors: `X·v = A₁·(D∘v)`
  set w : Fin p → ℝ := fun j => D j * v j with hwdef
  have hXA : X = A₁ * Matrix.diagonal D := by
    ext i j
    rw [Matrix.mul_diagonal, hA₁, div_mul_cancel₀ _ (hD j)]
  have hAw : A₁ *ᵥ w = 0 := by
    have : Matrix.diagonal D *ᵥ v = w := by
      funext j
      rw [Matrix.mulVec_diagonal]
    rw [← this, Matrix.mulVec_mulVec, ← hXA, hXv]
  have hVw : r.Vᵀ *ᵥ w = 0 := by
    have h0 : r.Uᵀ *ᵥ (A₁ *ᵥ w) = 0 := by
      rw [hAw, Matrix.mulVec_zero]
    rw [hsvd.1, Matrix.mulVec_mulVec] at h0
    rw [show r.Uᵀ * (r.U * Matrix.diagonal r.S * r.Vᵀ)
        = r.Uᵀ * r.U * (Matrix.diagonal r.S * r.Vᵀ) by
      simp only [Matrix.mul_assoc]] at h0
    rw [hsvd.2.1, Matrix.one_mul, ← Matrix.mulVec_mulVec] at h0
    funext j
    have hj := congrFun h0 j
    rw [Matrix.mulVec_diagonal] at hj
    simpa using (mul_eq_zero.mp hj).resolve_left (hS j)
  have hw0 : w = 0 := by
    have : w = (r.V * r.Vᵀ) *ᵥ w := by
      rw [isSVD_VVt hsvd, Matrix.one_mulVec]
    rw [this, ← Matrix.mulVec_mulVec, hVw, Matrix.mulVec_zero]
  have hv0 : v = 0 := by
    funext j
    have hj := congrFun hw0 j
    rw [hwdef] at hj
    simpa using (mul_eq_zero.mp hj).resolve_left (hD j)
  have := sub_eq_zero.mp (hvdef ▸ hv0)
  exact this

/-! ## Projections of a successful solve onto its defining expressions -/

lemma linear_svd_ok_fields_bal {n p : ℕ} [NeZero p]
    (svd : Matrix (Fin n) (Fin p) ℝ → SVDResult n p)
    (bal : Matrix (Fin n) (Fin p) ℝ → Matrix (Fin n) (Fin p) ℝ × (Fin p → ℝ))
    (X : Matrix (Fin n) (Fin p) ℝ) (y : Fin n → ℝ) (tol lambda : ℝ)
    (out : FitResult p)
    (h : multifit_linear_svd svd bal X y tol true lambda false = .ok out) :
    out.c = (fun i =>
      (((svd (bal X).1).V *
          Matrix.diagonal (reg_alpha tol lambda (svd (bal X).1).S)) *ᵥ
        ((svd (bal X).1).Uᵀ *ᵥ y)) i / (bal X).2 i) ∧
    out.rank = effRank tol (svd (bal X).1).S ∧
    out.chisq = (∑ i, (y i - ∑ j, X i j * out.c j) ^ 2) +
      ∑ i, lambda ^ 2 * out.c i ^ 2 := by
  unfold multifit_linear_svd at h
  split at h
  · exact absurd h (by simp)
  · rw [Except.ok.injEq] at h
    subst h
    exact ⟨rfl, rfl, rfl⟩

lemma linear_svd_ok_fields_nobal {n p : ℕ} [NeZero p]
    (svd : Matrix (Fin n) (Fin p) ℝ → SVDResult n p)
    (bal : Matrix (Fin n) (Fin p) ℝ → Matrix (Fin n) (Fin p) ℝ × (Fin p → ℝ))
    (X : Matrix (Fin n) (Fin p) ℝ) (y : Fin n → ℝ) (tol lambda : ℝ)
    (aliased : Bool) (out : FitResult p)
    (h : multifit_linear_svd svd bal X y tol false lambda aliased = .ok out) :
    out.c = (fun i =>
      (((svd X).V * Matrix.diagonal (reg_alpha tol lambda (svd X).S)) *ᵥ
        ((svd X).Uᵀ *ᵥ y)) i / (1 : ℝ)) ∧
    out.rank = effRank tol (svd X).S := by
  unfold multifit_linear_svd at h
  split at h
  · exact absurd h (by simp)
  · rw [Except.ok.injEq] at h
    subst h
    exact ⟨rfl, rfl⟩

lemma wlinear_svd_ok_fields_bal {n p : ℕ} [NeZero p]
    (svd : Matrix (Fin n) (Fin p) ℝ → SVDResult n p)
    (bal : Matrix (Fin n) (Fin p) ℝ → Matrix (Fin n) (Fin p) ℝ × (Fin p → ℝ))
    (X : Matrix (Fin n) (Fin p) ℝ) (w y : Fin n → ℝ) (tol : ℝ)
    (out : FitResult p)
    (h : multifit_wlinear_svd svd bal X w y tol true = .ok out) :
    out.c = (fun i =>
      (((svd (bal (wdesign w X)).1).V *
          Matrix.diagonal (w_alpha tol (svd (bal (wdesign w X)).1).S)) *ᵥ
        ((svd (bal (wdesign w X)).1).Uᵀ *ᵥ wrhs w y)) i /
        (bal (wdesign w X)).2 i) ∧
    out.rank = effRank tol (svd (bal (wdesign w X)).1).S := by
  unfold multifit_wlinear_svd at h
  rw [Except.ok.injEq] at h
  subst h
  exact ⟨rfl, rfl⟩

/-- A retained singular value is strictly positive: it strictly exceeds
`tol·s_0 ≥ 0`. -/
lemma keep_pos {p : ℕ} [NeZero p] {S : Fin p → ℝ} {tol : ℝ}
    (htol : 0 < tol) (hS0 : 0 ≤ S 0) {j : Fin p}
    (h : ¬ (S j ≤ tol * S 0)) : 0 < S j :=
  lt_of_le_of_lt (mul_nonneg htol.le hS0) (not_le.mp h)

/-- The retained regularized scale factors satisfy
`α_j·(s_j² + λ²) = s_j`. -/
lemma reg_alpha_spec {p : ℕ} [NeZero p] {S : Fin p → ℝ} {tol lam : ℝ}
    (hkeep : ∀ j, ¬ (S j ≤ tol * S 0))
    (hne : ∀ j, S j ^ 2 + lam ^ 2 ≠ 0) (j : Fin p) :
    reg_alpha tol lam S j * (S j ^ 2 + lam ^ 2) = S j := by
  rw [reg_alpha, if_neg (hkeep j), div_mul_cancel₀ _ (hne j)]

/-- The retained weighted scale factors satisfy `α_j·(s_j² + 0) = s_j`. -/
lemma w_alpha_spec {p : ℕ} [NeZero p] {S : Fin p → ℝ} {tol : ℝ}
    (hkeep : ∀ j, ¬ (S j ≤ tol * S 0))
    (hne : ∀ j, S j ≠ 0) (j : Fin p) :
    w_alpha tol S j * (S j ^ 2 + 0) = S j := by
  rw [w_alpha, if_neg (hkeep j), add_zero, one_div, pow_two,
    inv_mul_cancel_left₀ (hne j)]

/-- With every singular value retained, the effective rank is `p`. -/
lemma effRank_all_kept {p : ℕ} [NeZero p] {S : Fin p → ℝ} {tol : ℝ}
    (hkeep : ∀ j, ¬ (S j ≤ tol * S 0)) : effRank tol S = p := by
  rw [effRank, Finset.filter_true_of_mem fun j _ => hkeep j,
    Finset.card_univ, Fintype.card_fin]

/-! ## C6: ridge2 with a constant penalty vector matches scalar ridge -/

lemma eps_pos : 0 < GSL_DBL_EPSILON := by
  rw [GSL_DBL_EPSILON]
  norm_num

/-- The scalar-ridge solution satisfies `(Xᵀ·X + λ²·I)·c = Xᵀ·y` when no
singular value is truncated. -/
lemma ridge_normal_eq {n p : ℕ} [NeZero p]
    (svd : Matrix (Fin n) (Fin p) ℝ → SVDResult n p)
    (bal : Matrix (Fin n) (Fin p) ℝ → Matrix (Fin n) (Fin p) ℝ × (Fin p → ℝ))
    (X : Matrix (Fin n) (Fin p) ℝ) (y : Fin n → ℝ) (lambda : ℝ)
    (out : FitResult p)
    (hlam : lambda ≠ 0)
    (hsvdX : IsSVD (svd X) X)
    (hkeepX : ∀ j, ¬ ((svd X).S j ≤ GSL_DBL_EPSILON * (svd X).S 0))
    (h : gsl_multifit_linear_ridge lambda svd bal X y = .ok out) :
    (Xᵀ * X + lambda ^ 2 •
        Matrix.diagonal (fun _ : Fin p => (1 : ℝ) ^ 2)) *ᵥ out.c
      = Xᵀ *ᵥ y := by
  obtain ⟨hc, -⟩ := linear_svd_ok_fields_nobal svd bal X y GSL_DBL_EPSILON
    lambda false out h
  have hlam2 : (0 : ℝ) < lambda ^ 2 :=
    lt_of_le_of_ne (sq_nonneg lambda) (Ne.symm (pow_ne_zero 2 hlam))
  have hne : ∀ j, (svd X).S j ^ 2 + lambda ^ 2 ≠ 0 := fun j =>
    ne_of_gt (add_pos_of_nonneg_of_pos (sq_nonneg _) hlam2)
  have := regularized_normal_equation (D := fun _ => (1 : ℝ)) hsvdX
    (fun _ => one_ne_zero) (fun i j => (div_one _).symm) (lambda ^ 2)
    (reg_alpha GSL_DBL_EPSILON lambda (svd X).S)
    (reg_alpha_spec hkeepX hne) y
  rw [hc]
  exact this

/-- The ridge2 solution for the constant penalty vector `(λ, …, λ)`
satisfies the same normal equations `(Xᵀ·X + λ²·I)·c = Xᵀ·y`. -/
lemma ridge2_normal_eq {n p : ℕ} [NeZero p]
    (svd : Matrix (Fin n) (Fin p) ℝ → SVDResult n p)
    (bal : Matrix (Fin n) (Fin p) ℝ → Matrix (Fin n) (Fin p) ℝ × (Fin p → ℝ))
    (X : Matrix (Fin n) (Fin p) ℝ) (y : Fin n → ℝ) (lambda : ℝ)
    (out2 : FitResult p)
    (hlam : 0 < lambda)
    (hsvdXt : IsSVD (svd (fun i j => X i j * (1 / lambda)))
      (fun i j => X i j * (1 / lambda)))
    (hkeepXt : ∀ j, ¬ ((svd (fun i j => X i j * (1 / lambda))).S j
      ≤ GSL_DBL_EPSILON * (svd (fun i j => X i j * (1 / lambda))).S 0))
    (h2 : gsl_multifit_linear_ridge2 svd bal (fun _ => lambda) X y
      = .ok out2) :
    (Xᵀ * X + lambda ^ 2 •
        Matrix.diagonal (fun _ : Fin p => (1 : ℝ) ^ 2)) *ᵥ out2.c
      = Xᵀ *ᵥ y := by
  unfold gsl_multifit_linear_ridge2 at h2
  rw [if_neg (by rintro ⟨j, hj⟩; exact hlam.ne' hj)] at h2
  simp only [] at h2
  rcases hok : multifit_linear_svd svd bal
      (fun i j => X i j * (1 / lambda)) y GSL_DBL_EPSILON false 1 true
    with e | out'
  · rw [hok] at h2
    exact absurd h2 (by simp)
  rw [hok] at h2
  simp only [] at h2
  rw [Except.ok.injEq] at h2
  obtain ⟨hcfield, -⟩ := linear_svd_ok_fields_nobal svd bal
    (fun i j => X i j * (1 / lambda)) y GSL_DBL_EPSILON 1 true out' hok
  have hone : (0 : ℝ) < 1 ^ 2 := by norm_num
  have hne : ∀ j, (svd (fun i j => X i j * (1 / lambda))).S j ^ 2 + 1 ^ 2
      ≠ 0 := fun j =>
    ne_of_gt (add_pos_of_nonneg_of_pos (sq_nonneg _) hone)
  have NE2 := regularized_normal_equation (D := fun _ => (1 : ℝ)) hsvdXt
    (fun _ => one_ne_zero) (fun i j => (div_one _).symm) (1 ^ 2)
    (reg_alpha GSL_DBL_EPSILON 1 (svd (fun i j => X i j * (1 / lambda))).S)
    (reg_alpha_spec hkeepXt hne) y
  rw [← hcfield] at NE2
  -- rewrite both the hypothesis and the goal in terms of `Xᵀ·X` and
  -- `Xᵀ·y` using `X̃ = (1/λ)·X`
  have hsmul : (fun i j => X i j * (1 / lambda)) = (1 / lambda) • X := by
    funext i j
    simp [Matrix.smul_apply, mul_comm]
  have hdiag1 : Matrix.diagonal (fun _ : Fin p => (1 : ℝ) ^ 2)
      = (1 : Matrix (Fin p) (Fin p) ℝ) := by
    rw [show (fun _ : Fin p => (1 : ℝ) ^ 2) = fun _ => (1 : ℝ) by
      funext
      norm_num]
    exact Matrix.diagonal_one
  rw [hsmul, Matrix.transpose_smul, Matrix.smul_mul, Matrix.mul_smul,
    smul_smul, one_pow, Matrix.diagonal_one, one_smul, Matrix.add_mulVec,
    Matrix.smul_mulVec_assoc, Matrix.one_mulVec,
    Matrix.smul_mulVec_assoc] at NE2
  -- NE2 : (1/λ·(1/λ)) • ((Xᵀ*X) *ᵥ out'.c) + out'.c = (1/λ) • (Xᵀ *ᵥ y)
  have hc2 : out2.c = (1 / lambda) • out'.c := by
    rw [← h2]
    funext j
    simp [div_eq_inv_mul]
  have hNE := congrArg (fun v => lambda • v) NE2
  simp only [smul_add, smul_smul] at hNE
  rw [show lambda * (1 / lambda * (1 / lambda)) = 1 / lambda by
      field_simp,
    show lambda * (1 / lambda) = 1 by field_simp, one_smul] at hNE
  rw [hdiag1, hc2, Matrix.add_mulVec, Matrix.mulVec_smul_assoc,
    Matrix.smul_mulVec_assoc, Matrix.one_mulVec,
    smul_smul, show lambda ^ 2 * (1 / lambda) = lambda by
      field_simp [pow_two]]
  exact hNE

/-- C6: for every strictly positive scalar `λ` and every `X`, `y` of
matching shape, the ridge2 adapter called with the constant penalty vector
`(λ, …, λ)` returns the same coefficient vector as the scalar ridge solver
with parameter `λ` on the same data (stated for valid SVDs of the two
design matrices the calls factorize, with no singular value truncated by
the `GSL_DBL_EPSILON` threshold). -/
theorem ridge2_constant_matches_scalar_ridge {n p : ℕ} [NeZero p]
    (svd : Matrix (Fin n) (Fin p) ℝ → SVDResult n p)
    (bal : Matrix (Fin n) (Fin p) ℝ → Matrix (Fin n) (Fin p) ℝ × (Fin p → ℝ))
    (X : Matrix (Fin n) (Fin p) ℝ) (y : Fin n → ℝ) (lambda : ℝ)
    (outR out2 : FitResult p)
    (hlam : 0 < lambda)
    (hsvdX : IsSVD (svd X) X)
    (hkeepX : ∀ j, ¬ ((svd X).S j ≤ GSL_DBL_EPSILON * (svd X).S 0))
    (hsvdXt : IsSVD (svd (fun i j => X i j * (1 / lambda)))
      (fun i j => X i j * (1 / lambda)))
    (hkeepXt : ∀ j, ¬ ((svd (fun i j => X i j * (1 / lambda))).S j
      ≤ GSL_DBL_EPSILON * (svd (fun i j => X i j * (1 / lambda))).S 0))
    (hR : gsl_multifit_linear_ridge lambda svd bal X y = .ok outR)
    (h2 : gsl_multifit_linear_ridge2 svd bal (fun _ => lambda) X y
      = .ok out2) :
    out2.c = outR.c := by
  have e1 := ridge_normal_eq svd bal X y lambda outR hlam.ne' hsvdX hkeepX hR
  have e2 := ridge2_normal_eq svd bal X y lambda out2 hlam hsvdXt hkeepXt h2
  exact normal_solution_unique (D := fun _ => (1 : ℝ)) hsvdX
    (fun _ => one_ne_zero) (fun i j => (div_one _).symm)
    (fun j => (keep_pos eps_pos (hsvdX.2.2.2.2 0) (hkeepX j)).ne')
    (sq_nonneg lambda) (e2.trans e1.symm)

/-- A concrete SVD oracle, valid on every 2×1 matrix whose column is a
multiple of `(3, 4)` — in particular on `[[3],[4]]` and `[[3/5],[4/5]]`. -/
noncomputable def svd34 : Matrix (Fin 2) (Fin 1) ℝ → SVDResult 2 1 :=
  fun A => ⟨![![3 / 5], ![4 / 5]], ![(3 * A 0 0 + 4 * A 1 0) / 5], ![![1]]⟩

lemma isSVD_svd34 : IsSVD (svd34 ![![3], ![4]]) ![![3], ![4]] := by
  refine ⟨?_, ?_, ?_, ?_, ?_⟩
  · ext i j
    fin_cases i <;> fin_cases j <;>
      norm_num [svd34, Matrix.mul_apply, Fin.sum_univ_one, Matrix.diagonal]
  · ext i j
    fin_cases i <;> fin_cases j <;>
      norm_num [svd34, Matrix.mul_apply, Fin.sum_univ_two]
  · ext i j
    fin_cases i <;> fin_cases j <;>
      norm_num [svd34, Matrix.mul_apply, Fin.sum_univ_one]
  · intro i j _
    fin_cases i <;> fin_cases j <;> norm_num
  · intro j
    fin_cases j <;> norm_num [svd34]

lemma isSVD_svd34_scaled :
    IsSVD (svd34 (fun i j =>
        (![![3], ![4]] : Matrix (Fin 2) (Fin 1) ℝ) i j * (1 / 5)))
      (fun i j => (![![3], ![4]] : Matrix (Fin 2) (Fin 1) ℝ) i j * (1 / 5)) := by
  have hM : (fun i j =>
      (![![3], ![4]] : Matrix (Fin 2) (Fin 1) ℝ) i j * (1 / 5))
      = (![![3 / 5], ![4 / 5]] : Matrix (Fin 2) (Fin 1) ℝ) := by
    ext i j
    fin_cases i <;> fin_cases j <;> norm_num
  rw [hM]
  refine ⟨?_, ?_, ?_, ?_, ?_⟩
  · ext i j
    fin_cases i <;> fin_cases j <;>
      norm_num [svd34, Matrix.mul_apply, Fin.sum_univ_one, Matrix.diagonal]
  · ext i j
    fin_cases i <;> fin_cases j <;>
      norm_num [svd34, Matrix.mul_apply, Fin.sum_univ_two]
  · ext i j
    fin_cases i <;> fin_cases j <;>
      norm_num [svd34, Matrix.mul_apply, Fin.sum_univ_one]
  · intro i j _
    fin_cases i <;> fin_cases j <;> norm_num
  · intro j
    fin_cases j <;> norm_num [svd34]

/-- Evaluation of the scalar ridge solver on `X = [[3],[4]]`, `y = [1,2]`,
`λ = 5`: the coefficient is `11/50`. -/
lemma ridge34_run :
    gsl_multifit_linear_ridge 5 svd34 balId ![![3], ![4]] ![1, 2]
      = .ok ⟨1, ![11 / 50], ![![137 / 10000]], 129 / 50⟩ := by
  rw [gsl_multifit_linear_ridge, multifit_linear_svd,
    if_neg (not_le.mpr eps_pos)]
  rw [Except.ok.injEq]
  ext
  · simp only [effRank, svd34]
    rw [Finset.filter_true_of_mem, Finset.card_univ, Fintype.card_fin]
    intro j _
    fin_cases j
    norm_num [GSL_DBL_EPSILON]
  · norm_num [svd34, reg_alpha, GSL_DBL_EPSILON, Matrix.mulVec,
      Matrix.dotProduct, Fin.sum_univ_two, Fin.sum_univ_one,
      Matrix.mul_apply, Matrix.diagonal]
  · norm_num [svd34, reg_alpha, GSL_DBL_EPSILON, effRank, Matrix.mulVec,
      Matrix.dotProduct, Fin.sum_univ_two, Fin.sum_univ_one,
      Matrix.mul_apply, Matrix.diagonal,
      Finset.filter_true_of_mem (fun j _ => by fin_cases j; norm_num :
        ∀ j ∈ Finset.univ,
          ¬ ((![(5 : ℝ)] : Fin 1 → ℝ) j ≤ 1 / 2 ^ 52 * ![(5 : ℝ)] 0))]
  · norm_num [svd34, reg_alpha, GSL_DBL_EPSILON, Matrix.mulVec,
      Matrix.dotProduct, Fin.sum_univ_two, Fin.sum_univ_one,
      Matrix.mul_apply, Matrix.diagonal]

/-- Evaluation of the ridge2 adapter on the same data with the constant
penalty vector `(5)`: the recovered coefficient is also `11/50`. -/
lemma ridge2_34_run :
    gsl_multifit_linear_ridge2 svd34 balId (fun _ => 5) ![![3], ![4]] ![1, 2]
      = .ok ⟨1, ![11 / 50], ![![137 / 400]], 129 / 50⟩ := by
  rw [gsl_multifit_linear_ridge2,
    if_neg (by rintro ⟨j, hj⟩; norm_num at hj)]
  have hcore : multifit_linear_svd svd34 balId
      (fun i j => (![![3], ![4]] : Matrix (Fin 2) (Fin 1) ℝ) i j *
        (1 / (fun _ : Fin 1 => (5 : ℝ)) j)) ![1, 2]
      GSL_DBL_EPSILON false 1 true
      = .ok ⟨1, ![11 / 10], ![![137 / 400]], 129 / 50⟩ := by
    rw [multifit_linear_svd, if_neg (not_le.mpr eps_pos)]
    rw [Except.ok.injEq]
    ext
    · simp only [effRank, svd34]
      rw [Finset.filter_true_of_mem, Finset.card_univ, Fintype.card_fin]
      intro j _
      fin_cases j
      norm_num [GSL_DBL_EPSILON]
    · norm_num [svd34, reg_alpha, GSL_DBL_EPSILON, Matrix.mulVec,
        Matrix.dotProduct, Fin.sum_univ_two, Fin.sum_univ_one,
        Matrix.mul_apply, Matrix.diagonal]
    · norm_num [svd34, reg_alpha, GSL_DBL_EPSILON, effRank, Matrix.mulVec,
        Matrix.dotProduct, Fin.sum_univ_two, Fin.sum_univ_one,
        Matrix.mul_apply, Matrix.diagonal,
        Finset.filter_true_of_mem (fun j _ => by fin_cases j; norm_num :
          ∀ j ∈ Finset.univ,
            ¬ ((![(1 : ℝ)] : Fin 1 → ℝ) j ≤ 1 / 2 ^ 52 * ![(1 : ℝ)] 0))]
    · norm_num [svd34, reg_alpha, GSL_DBL_EPSILON, Matrix.mulVec,
        Matrix.dotProduct, Fin.sum_univ_two, Fin.sum_univ_one,
        Matrix.mul_apply, Matrix.diagonal]
  simp only [hcore]
  rw [Except.ok.injEq]
  ext
  · rfl
  · norm_num
  · rfl
  · rfl

/-- Witness for C6 at a concrete input: `X = [[3],[4]]`, `y = [1,2]`,
`λ = 5`, with every hypothesis discharged on the explicit oracle `svd34`;
both calls return the coefficient vector `[11/50]`. -/
theorem ridge2_constant_matches_scalar_ridge_witness :
    (⟨1, ![11 / 50], ![![137 / 400]], 129 / 50⟩ : FitResult 1).c
      = (⟨1, ![11 / 50], ![![137 / 10000]], 129 / 50⟩ : FitResult 1).c :=
  ridge2_constant_matches_scalar_ridge svd34 balId ![![3], ![4]] ![1, 2] 5
    ⟨1, ![11 / 50], ![![137 / 10000]], 129 / 50⟩
    ⟨1, ![11 / 50], ![![137 / 400]], 129 / 50⟩
    (by norm_num) isSVD_svd34
    (by
      intro j
      fin_cases j
      norm_num [svd34, GSL_DBL_EPSILON])
    isSVD_svd34_scaled
    (by
      intro j
      fin_cases j
      norm_num [svd34, GSL_DBL_EPSILON])
    ridge34_run ridge2_34_run

/-! ## C8: uniform positive weights reproduce the unweighted fit -/

/-- C8: with `λ = 0`, balancing enabled (the default entry points), and a
uniform strictly positive weight vector, the weighted and unweighted
solvers produce identical coefficient vectors on the same `X` and `y`
(stated for valid balancings and SVDs of the two factorized matrices, with
no singular value truncated). -/
theorem weighted_uniform_matches_unweighted {n p : ℕ} [NeZero p]
    (svd : Matrix (Fin n) (Fin p) ℝ → SVDResult n p)
    (bal : Matrix (Fin n) (Fin p) ℝ → Matrix (Fin n) (Fin p) ℝ × (Fin p → ℝ))
    (X : Matrix (Fin n) (Fin p) ℝ) (y w : Fin n → ℝ) (wval : ℝ)
    (outU outW : FitResult p)
    (hw : ∀ i, w i = wval) (hwpos : 0 < wval)
    (hbalX : IsBalance (bal X) X)
    (hsvdX : IsSVD (svd (bal X).1) ((bal X).1))
    (hkeepX : ∀ j, ¬ ((svd (bal X).1).S j
      ≤ GSL_DBL_EPSILON * (svd (bal X).1).S 0))
    (hbalW : IsBalance (bal (wdesign w X)) (wdesign w X))
    (hsvdW : IsSVD (svd (bal (wdesign w X)).1) ((bal (wdesign w X)).1))
    (hkeepW : ∀ j, ¬ ((svd (bal (wdesign w X)).1).S j
      ≤ GSL_DBL_EPSILON * (svd (bal (wdesign w X)).1).S 0))
    (hU : gsl_multifit_linear svd bal X y = .ok outU)
    (hW : gsl_multifit_wlinear svd bal X w y = .ok outW) :
    outW.c = outU.c := by
  -- the unweighted solution satisfies `XᵀX·c = Xᵀy`
  have hSUpos : ∀ j, 0 < (svd (bal X).1).S j := fun j =>
    keep_pos eps_pos (hsvdX.2.2.2.2 0) (hkeepX j)
  have hneU : ∀ j, (svd (bal X).1).S j ^ 2 + (0 : ℝ) ^ 2 ≠ 0 := fun j => by
    have := hSUpos j
    positivity
  obtain ⟨hcU, -, -⟩ := linear_svd_ok_fields_bal svd bal X y
    GSL_DBL_EPSILON 0 outU hU
  have NEU := regularized_normal_equation (D := (bal X).2) hsvdX
    (fun j => (hbalX.1 j).ne') (fun i j => hbalX.2 i j) ((0 : ℝ) ^ 2)
    (reg_alpha GSL_DBL_EPSILON 0 (svd (bal X).1).S)
    (reg_alpha_spec hkeepX hneU) y
  rw [← hcU] at NEU
  rw [show ((0 : ℝ) ^ 2) = 0 by norm_num, zero_smul, add_zero] at NEU
  -- the weighted solution satisfies the same equations after cancelling
  -- the uniform weight
  have hSWpos : ∀ j, 0 < (svd (bal (wdesign w X)).1).S j := fun j =>
    keep_pos eps_pos (hsvdW.2.2.2.2 0) (hkeepW j)
  obtain ⟨hcW, -⟩ := wlinear_svd_ok_fields_bal svd bal X w y
    GSL_DBL_EPSILON outW hW
  have NEW := regularized_normal_equation (D := (bal (wdesign w X)).2) hsvdW
    (fun j => (hbalW.1 j).ne') (fun i j => hbalW.2 i j) 0
    (w_alpha GSL_DBL_EPSILON (svd (bal (wdesign w X)).1).S)
    (w_alpha_spec hkeepW (fun j => (hSWpos j).ne')) (wrhs w y)
  rw [← hcW] at NEW
  rw [zero_smul, add_zero] at NEW
  -- rewrite the weighted design and response through the uniform weight
  have hwd : wdesign w X = Real.sqrt wval • X := by
    funext i j
    rw [wdesign, Matrix.smul_apply, hw i, if_neg (not_lt.mpr hwpos.le),
      smul_eq_mul]
  have hwr : wrhs w y = Real.sqrt wval • y := by
    funext i
    rw [wrhs, hw i, if_neg (not_lt.mpr hwpos.le), Pi.smul_apply,
      smul_eq_mul]
  have hss : Real.sqrt wval * Real.sqrt wval = wval :=
    Real.mul_self_sqrt hwpos.le
  rw [hwd, hwr] at NEW
  simp only [Matrix.transpose_smul, Matrix.smul_mul, Matrix.mul_smul,
    Matrix.smul_mulVec_assoc, Matrix.mulVec_smul_assoc, smul_smul,
    hss] at NEW
  -- NEW : wval • ((Xᵀ*X) *ᵥ outW.c) = wval • (Xᵀ *ᵥ y)
  have NEW' : (Xᵀ * X) *ᵥ outW.c = Xᵀ *ᵥ y :=
    (smul_right_inj hwpos.ne').mp NEW
  refine normal_solution_unique (D := (bal X).2) hsvdX
    (fun j => (hbalX.1 j).ne') (fun i j => hbalX.2 i j)
    (fun j => (hSUpos j).ne') (le_refl (0 : ℝ)) ?_
  rw [zero_smul, add_zero]
  exact NEW'.trans NEU.symm

lemma sqrt_four : Real.sqrt 4 = 2 := by
  rw [show (4 : ℝ) = 2 ^ 2 by norm_num, Real.sqrt_sq (by norm_num)]

lemma wdesign_four :
    wdesign ![4, 4] ![![3], ![4]] = (![![6], ![8]] : Matrix (Fin 2) (Fin 1) ℝ) := by
  ext i j
  fin_cases i <;> fin_cases j <;>
    norm_num [wdesign, sqrt_four]

lemma isSVD_svd34_w :
    IsSVD (svd34 (balId (wdesign ![4, 4] ![![3], ![4]])).1)
      ((balId (wdesign ![4, 4] ![![3], ![4]])).1) := by
  show IsSVD (svd34 (wdesign ![4, 4] ![![3], ![4]]))
    (wdesign ![4, 4] ![![3], ![4]])
  rw [wdesign_four]
  refine ⟨?_, ?_, ?_, ?_, ?_⟩
  · ext i j
    fin_cases i <;> fin_cases j <;>
      norm_num [svd34, Matrix.mul_apply, Fin.sum_univ_one, Matrix.diagonal]
  · ext i j
    fin_cases i <;> fin_cases j <;>
      norm_num [svd34, Matrix.mul_apply, Fin.sum_univ_two]
  · ext i j
    fin_cases i <;> fin_cases j <;>
      norm_num [svd34, Matrix.mul_apply, Fin.sum_univ_one]
  · intro i j _
    fin_cases i <;> fin_cases j <;> norm_num
  · intro j
    fin_cases j <;> norm_num [svd34]

/-- Evaluation of the default unweighted entry point on `X = [[3],[4]]`,
`y = [1,2]`: coefficient `11/25`. -/
lemma linear34_run :
    gsl_multifit_linear svd34 balId ![![3], ![4]] ![1, 2]
      = .ok ⟨1, ![11 / 25], ![![4 / 625]], 4 / 25⟩ := by
  rw [gsl_multifit_linear, multifit_linear_svd,
    if_neg (not_le.mpr eps_pos)]
  rw [Except.ok.injEq]
  ext
  · simp only [effRank, svd34, balId]
    rw [Finset.filter_true_of_mem, Finset.card_univ, Fintype.card_fin]
    intro j _
    fin_cases j
    norm_num [GSL_DBL_EPSILON]
  · norm_num [svd34, balId, reg_alpha, GSL_DBL_EPSILON, Matrix.mulVec,
      Matrix.dotProduct, Fin.sum_univ_two, Fin.sum_univ_one,
      Matrix.mul_apply, Matrix.diagonal]
  · norm_num [svd34, balId, reg_alpha, GSL_DBL_EPSILON, effRank,
      Matrix.mulVec, Matrix.dotProduct, Fin.sum_univ_two, Fin.sum_univ_one,
      Matrix.mul_apply, Matrix.diagonal,
      Finset.filter_true_of_mem (fun j _ => by fin_cases j; norm_num :
        ∀ j ∈ Finset.univ,
          ¬ ((![(5 : ℝ)] : Fin 1 → ℝ) j ≤ 1 / 2 ^ 52 * ![(5 : ℝ)] 0))]
  · norm_num [svd34, balId, reg_alpha, GSL_DBL_EPSILON, Matrix.mulVec,
      Matrix.dotProduct, Fin.sum_univ_two, Fin.sum_univ_one,
      Matrix.mul_apply, Matrix.diagonal]

/-- Evaluation of the default weighted entry point on the same data with
uniform weights `w = [4,4]`: the same coefficient `11/25`. -/
lemma wlinear34_run :
    gsl_multifit_wlinear svd34 balId ![![3], ![4]] ![4, 4] ![1, 2]
      = .ok ⟨1, ![11 / 25], ![![1 / 100]], 16 / 25⟩ := by
  rw [gsl_multifit_wlinear, multifit_wlinear_svd]
  rw [Except.ok.injEq]
  ext
  · simp only [effRank, svd34, balId]
    rw [Finset.filter_true_of_mem, Finset.card_univ, Fintype.card_fin]
    intro j _
    fin_cases j
    norm_num [GSL_DBL_EPSILON, sqrt_four]
  · norm_num [svd34, balId, w_alpha, GSL_DBL_EPSILON, Matrix.mulVec,
      Matrix.dotProduct, Fin.sum_univ_two, Fin.sum_univ_one,
      Matrix.mul_apply, Matrix.diagonal, sqrt_four]
  · norm_num [svd34, balId, w_alpha, GSL_DBL_EPSILON, Matrix.mulVec,
      Matrix.dotProduct, Fin.sum_univ_two, Fin.sum_univ_one,
      Matrix.mul_apply, Matrix.diagonal, sqrt_four]
  · norm_num [svd34, balId, w_alpha, GSL_DBL_EPSILON, Matrix.mulVec,
      Matrix.dotProduct, Fin.sum_univ_two, Fin.sum_univ_one,
      Matrix.mul_apply, Matrix.diagonal, sqrt_four]

/-- Witness for C8 at a concrete input: `X = [[3],[4]]`, `y = [1,2]`,
uniform weights `[4,4]`; both entry points return `c = [11/25]`. -/
theorem weighted_uniform_matches_unweighted_witness :
    (⟨1, ![11 / 25], ![![1 / 100]], 16 / 25⟩ : FitResult 1).c
      = (⟨1, ![11 / 25], ![![4 / 625]], 4 / 25⟩ : FitResult 1).c :=
  weighted_uniform_matches_unweighted svd34 balId ![![3], ![4]] ![1, 2]
    ![4, 4] 4
    ⟨1, ![11 / 25], ![![4 / 625]], 4 / 25⟩
    ⟨1, ![11 / 25], ![![1 / 100]], 16 / 25⟩
    (fun i => by fin_cases i <;> norm_num) (by norm_num)
    (isBalance_balId _) isSVD_svd34
    (by
      intro j
      fin_cases j
      norm_num [svd34, balId, GSL_DBL_EPSILON])
    (isBalance_balId _) isSVD_svd34_w
    (by
      intro j
      fin_cases j
      norm_num [svd34, balId, wdesign, sqrt_four, GSL_DBL_EPSILON])
    linear34_run wlinear34_run

/-! ## C5: the effective rank -/

lemma linear_svd_ok_rank {n p : ℕ} [NeZero p]
    (svd : Matrix (Fin n) (Fin p) ℝ → SVDResult n p)
    (bal : Matrix (Fin n) (Fin p) ℝ → Matrix (Fin n) (Fin p) ℝ × (Fin p → ℝ))
    (X : Matrix (Fin n) (Fin p) ℝ) (y : Fin n → ℝ)
    (tol lambda : ℝ) (balance aliased : Bool) (out : FitResult p)
    (h : multifit_linear_svd svd bal X y tol balance lambda aliased
      = .ok out) :
    out.rank = effRank tol
      (svd (if balance then bal X else (X, fun _ => (1 : ℝ))).1).S := by
  unfold multifit_linear_svd at h
  split at h
  · exact absurd h (by simp)
  · rw [Except.ok.injEq] at h
    subst h
    rfl

lemma wlinear_svd_ok_rank {n p : ℕ} [NeZero p]
    (svd : Matrix (Fin n) (Fin p) ℝ → SVDResult n p)
    (bal : Matrix (Fin n) (Fin p) ℝ → Matrix (Fin n) (Fin p) ℝ × (Fin p → ℝ))
    (X : Matrix (Fin n) (Fin p) ℝ) (w y : Fin n → ℝ)
    (tol : ℝ) (balance : Bool) (out : FitResult p)
    (h : multifit_wlinear_svd svd bal X w y tol balance = .ok out) :
    out.rank = effRank tol
      (svd (if balance then bal (wdesign w X)
        else (wdesign w X, fun _ => (1 : ℝ))).1).S := by
  unfold multifit_wlinear_svd at h
  rw [Except.ok.injEq] at h
  subst h
  rfl

lemma effRank_eq_count_lt {p : ℕ} [NeZero p] (tol : ℝ) (S : Fin p → ℝ) :
    effRank tol S = (Finset.univ.filter fun j => tol * S 0 < S j).card := by
  rw [effRank]
  congr 1
  simp only [not_le]

lemma effRank_le {p : ℕ} [NeZero p] (tol : ℝ) (S : Fin p → ℝ) :
    effRank tol S ≤ p := by
  rw [effRank]
  calc (Finset.univ.filter fun j => ¬ (S j ≤ tol * S 0)).card
      ≤ Finset.univ.card := Finset.card_filter_le _ _
    _ = p := by rw [Finset.card_univ, Fintype.card_fin]

/-- `UᵀU = 1` forces `p ≤ n`: the thin SVD only exists for `n ≥ p`. -/
lemma isSVD_p_le_n {n p : ℕ} {r : SVDResult n p}
    {A : Matrix (Fin n) (Fin p) ℝ} (h : IsSVD r A) : p ≤ n := by
  have h2 := Matrix.rank_mul_le_right r.Uᵀ r.U
  rw [h.2.1, Matrix.rank_one, Fintype.card_fin] at h2
  exact le_trans h2 (Matrix.rank_le_height r.U)

/-- C5: for every successful solve, weighted or unweighted, on an `n×p`
design matrix with a valid SVD of the factorized matrix, the returned
effective rank equals the number of singular values strictly exceeding
`tol·s_0`, and lies in `[0, min n p]` (the lower bound is automatic for a
natural number). -/
theorem effective_rank_spec {n p : ℕ} [NeZero p]
    (svd : Matrix (Fin n) (Fin p) ℝ → SVDResult n p)
    (bal : Matrix (Fin n) (Fin p) ℝ → Matrix (Fin n) (Fin p) ℝ × (Fin p → ℝ))
    (X : Matrix (Fin n) (Fin p) ℝ) (w y : Fin n → ℝ)
    (tol lambda : ℝ) (balance aliased : Bool) :
    (∀ out, multifit_linear_svd svd bal X y tol balance lambda aliased
        = .ok out →
      IsSVD (svd (if balance then bal X else (X, fun _ => (1 : ℝ))).1)
        ((if balance then bal X else (X, fun _ => (1 : ℝ))).1) →
      out.rank = (Finset.univ.filter fun j =>
          tol * (svd (if balance then bal X
            else (X, fun _ => (1 : ℝ))).1).S 0
          < (svd (if balance then bal X
            else (X, fun _ => (1 : ℝ))).1).S j).card ∧
      out.rank ≤ min n p) ∧
    (∀ out, multifit_wlinear_svd svd bal X w y tol balance = .ok out →
      IsSVD (svd (if balance then bal (wdesign w X)
          else (wdesign w X, fun _ => (1 : ℝ))).1)
        ((if balance then bal (wdesign w X)
          else (wdesign w X, fun _ => (1 : ℝ))).1) →
      out.rank = (Finset.univ.filter fun j =>
          tol * (svd (if balance then bal (wdesign w X)
            else (wdesign w X, fun _ => (1 : ℝ))).1).S 0
          < (svd (if balance then bal (wdesign w X)
            else (wdesign w X, fun _ => (1 : ℝ))).1).S j).card ∧
      out.rank ≤ min n p) := by
  constructor
  · intro out hok hsvd
    have hr := linear_svd_ok_rank svd bal X y tol lambda balance aliased
      out hok
    refine ⟨by rw [hr, effRank_eq_count_lt], ?_⟩
    rw [min_eq_right (isSVD_p_le_n hsvd), hr]
    exact effRank_le _ _
  · intro out hok hsvd
    have hr := wlinear_svd_ok_rank svd bal X w y tol balance out hok
    refine ⟨by rw [hr, effRank_eq_count_lt], ?_⟩
    rw [min_eq_right (isSVD_p_le_n hsvd), hr]
    exact effRank_le _ _

lemma isSVD_svdW10_w :
    IsSVD (svdW10 (wdesign ![1, -1] ![![1], ![1]]))
      (wdesign ![1, -1] ![![1], ![1]]) := by
  have h : wdesign ![1, -1] ![![1], ![1]]
      = (![![1], ![0]] : Matrix (Fin 2) (Fin 1) ℝ) := by
    ext i j
    fin_cases i <;> fin_cases j <;> norm_num [wdesign]
  rw [h]
  exact isSVD_svdW10

/-- Witness for C5: both conjuncts discharged at concrete inputs — the
unweighted solve on `[[2]]` (rank 1 = count, `min 1 1`) and the weighted
solve on `[[1],[1]]` with weights `[1,-1]` (rank 1 = count, `min 2 1`). -/
theorem effective_rank_spec_witness :
    ((⟨1, ![2 / 5], ![![0]], 1 / 5⟩ : FitResult 1).rank
      = (Finset.univ.filter fun j =>
          GSL_DBL_EPSILON * (svdM2 ![![2]]).S 0 < (svdM2 ![![2]]).S j).card ∧
      (⟨1, ![2 / 5], ![![0]], 1 / 5⟩ : FitResult 1).rank ≤ min 1 1) ∧
    ((⟨1, ![0], ![![1]], -1⟩ : FitResult 1).rank
      = (Finset.univ.filter fun j =>
          (1 / 2 : ℝ) * (svdW10 (wdesign ![1, -1] ![![1], ![1]])).S 0
            < (svdW10 (wdesign ![1, -1] ![![1], ![1]])).S j).card ∧
      (⟨1, ![0], ![![1]], -1⟩ : FitResult 1).rank ≤ min 2 1) :=
  ⟨(effective_rank_spec svdM2 balId ![![2]] ![1] ![1] GSL_DBL_EPSILON 1
      false false).1 ⟨1, ![2 / 5], ![![0]], 1 / 5⟩ linear_m2_run_plain
      isSVD_svdM2,
   (effective_rank_spec svdW10 balId ![![1], ![1]] ![1, -1] ![0, 1] (1 / 2)
      0 false false).2 ⟨1, ![0], ![![1]], -1⟩ wlinear_neg_weight_run
      isSVD_svdW10_w⟩

/-! ## C1: the concrete line-fit scenario

`X = [[1,0],[1,1],[1,2]]`, `y = [1,2,2]`, `τ = 1e-10`, `λ = 0`, balancing
on.  The least-squares solution of this system is `c = [7/6, 1/2]` with
residual sum `1/6`, not `c ≈ [1, 0.5]`: the claim's stated coefficients are
inconsistent with its own `chisq ≈ 0.1667` (at `c = [1, 0.5]` the residual
sum would be `1/4`).  An explicit SVD of `X` (over `√10`) witnesses the
hypotheses. -/

noncomputable def X1 : Matrix (Fin 3) (Fin 2) ℝ := ![![1, 0], ![1, 1], ![1, 2]]

noncomputable def y1 : Fin 3 → ℝ := ![1, 2, 2]

noncomputable def tol1 : ℝ := 1 / 10 ^ 10

noncomputable def r10 : ℝ := Real.sqrt 10

noncomputable def sPl : ℝ := Real.sqrt (4 + r10)

noncomputable def sMi : ℝ := Real.sqrt (4 - r10)

noncomputable def nPl : ℝ := Real.sqrt (20 + 2 * r10)

noncomputable def nMi : ℝ := Real.sqrt (20 - 2 * r10)

/-- The unnormalized eigenvector matrix of `X1ᵀ·X1`: columns `(3, 1±√10)`. -/
noncomputable def W1 : Matrix (Fin 2) (Fin 2) ℝ := ![![3, 3], ![1 + r10, 1 - r10]]

/-- An explicit SVD oracle for the scenario matrix `X1`:
`U = X1·W1·diag(1/(n_j·s_j))`, `S = (√(4+√10), √(4−√10))`,
`V = W1·diag(1/n_j)` with `n_j² = 20 ± 2√10` the squared column norms. -/
noncomputable def svdX1 : Matrix (Fin 3) (Fin 2) ℝ → SVDResult 3 2 :=
  fun _ =>
    ⟨X1 * W1 * Matrix.diagonal ![1 / (nPl * sPl), 1 / (nMi * sMi)],
     ![sPl, sMi],
     W1 * Matrix.diagonal ![1 / nPl, 1 / nMi]⟩

lemma r10_sq : r10 ^ 2 = 10 := Real.sq_sqrt (by norm_num)

lemma r10_nonneg : 0 ≤ r10 := Real.sqrt_nonneg 10

lemma r10_gt_three : 3 < r10 := by
  rw [r10]
  exact (Real.lt_sqrt (by norm_num)).mpr (by norm_num)

lemma r10_lt : r10 < 7 / 2 := by
  rw [r10]
  exact (Real.sqrt_lt' (by norm_num)).mpr (by norm_num)

lemma sPl_sq : sPl ^ 2 = 4 + r10 := Real.sq_sqrt (by linarith [r10_nonneg])

lemma sMi_sq : sMi ^ 2 = 4 - r10 := Real.sq_sqrt (by linarith [r10_lt])

lemma nPl_sq : nPl ^ 2 = 20 + 2 * r10 := Real.sq_sqrt (by linarith [r10_nonneg])

lemma nMi_sq : nMi ^ 2 = 20 - 2 * r10 := Real.sq_sqrt (by linarith [r10_lt])

lemma sPl_pos : 0 < sPl := Real.sqrt_pos.mpr (by linarith [r10_nonneg])

lemma sMi_pos : 0 < sMi := Real.sqrt_pos.mpr (by linarith [r10_lt])

lemma nPl_pos : 0 < nPl := Real.sqrt_pos.mpr (by linarith [r10_nonneg])

lemma nMi_pos : 0 < nMi := Real.sqrt_pos.mpr (by linarith [r10_lt])

lemma isSVD_svdX1 : IsSVD (svdX1 X1) X1 := by
  have hnp := nPl_pos.ne'
  have hnm := nMi_pos.ne'
  have hsp := sPl_pos.ne'
  have hsm := sMi_pos.ne'
  refine ⟨?_, ?_, ?_, ?_, ?_⟩
  · ext i k
    fin_cases i <;> fin_cases k <;>
      simp only [svdX1, X1, W1, Matrix.mul_apply, Matrix.transpose_apply,
        Matrix.diagonal, Fin.sum_univ_two, Fin.sum_univ_three,
        Matrix.cons_val', Matrix.cons_val_zero, Matrix.cons_val_one,
        Matrix.head_cons, Matrix.head_fin_const, Matrix.of_apply,
        Matrix.vecHead, Matrix.vecTail, Function.comp_apply,
        Fin.isValue, Matrix.empty_val', Matrix.cons_val_fin_one] <;>
      norm_num <;>
      field_simp
    · linear_combination (sPl * sMi * (nMi ^ 2 - 9)) * nPl_sq +
        (sPl * sMi * (11 + 2 * r10)) * nMi_sq +
        (-4 * sPl * sMi) * r10_sq
    · linear_combination (-3 * sPl * sMi * (1 - r10)) * nPl_sq +
        (-3 * sPl * sMi * (1 + r10)) * nMi_sq +
        (12 * sPl * sMi) * r10_sq
    · linear_combination (sPl * sMi * (nMi ^ 2 - 12 + 3 * r10)) * nPl_sq +
        (sPl * sMi * (8 - r10)) * nMi_sq +
        (8 * sPl * sMi) * r10_sq
    · linear_combination
        (sPl * sMi * (nMi ^ 2 - 4 + 5 * r10 - r10 ^ 2)) * nPl_sq +
        (sPl * sMi * (16 - 3 * r10 - r10 ^ 2)) * nMi_sq +
        (-24 * sPl * sMi) * r10_sq
    · linear_combination (sPl * sMi * (nMi ^ 2 - 15 + 6 * r10)) * nPl_sq +
        (sPl * sMi * (5 - 4 * r10)) * nMi_sq +
        (20 * sPl * sMi) * r10_sq
    · linear_combination
        (sPl * sMi * (2 * nMi ^ 2 - 5 + 7 * r10 - 2 * r10 ^ 2)) * nPl_sq +
        (sPl * sMi * (35 - 3 * r10 - 2 * r10 ^ 2)) * nMi_sq +
        (-60 * sPl * sMi) * r10_sq
  · ext j k
    fin_cases j <;> fin_cases k <;>
      simp only [svdX1, X1, W1, Matrix.mul_apply, Matrix.transpose_apply,
        Matrix.diagonal, Fin.sum_univ_two, Fin.sum_univ_three,
        Matrix.cons_val', Matrix.cons_val_zero, Matrix.cons_val_one,
        Matrix.head_cons, Matrix.head_fin_const, Matrix.of_apply,
        Matrix.vecHead, Matrix.vecTail, Function.comp_apply,
        Matrix.one_apply, Fin.isValue, Matrix.empty_val',
        Matrix.cons_val_fin_one] <;>
      norm_num [Matrix.vecHead, Matrix.vecTail, Function.comp_apply] <;>
      field_simp
    · linear_combination 3 * r10_sq - nPl ^ 2 * sPl_sq -
        (4 + r10) * nPl_sq
    · linear_combination (-5 : ℝ) * r10_sq
    · linear_combination (-5 : ℝ) * r10_sq
    · linear_combination 3 * r10_sq - nMi ^ 2 * sMi_sq -
        (4 - r10) * nMi_sq
  · ext j k
    fin_cases j <;> fin_cases k <;>
      simp only [svdX1, X1, W1, Matrix.mul_apply, Matrix.transpose_apply,
        Matrix.diagonal, Fin.sum_univ_two, Fin.sum_univ_three,
        Matrix.cons_val', Matrix.cons_val_zero, Matrix.cons_val_one,
        Matrix.head_cons, Matrix.head_fin_const, Matrix.of_apply,
        Matrix.vecHead, Matrix.vecTail, Function.comp_apply,
        Matrix.one_apply, Fin.isValue, Matrix.empty_val',
        Matrix.cons_val_fin_one] <;>
      norm_num <;>
      field_simp
    · linear_combination r10_sq - nPl_sq
    · linear_combination (-1 : ℝ) * r10_sq
    · linear_combination (-1 : ℝ) * r10_sq
    · linear_combination r10_sq - nMi_sq
  · intro i j hij
    fin_cases i <;> fin_cases j <;>
      simp_all [svdX1, sPl, sMi]
    · exact Real.sqrt_le_sqrt (by linarith [r10_nonneg])
  · intro j
    fin_cases j <;> simp [svdX1, sPl, sMi, Real.sqrt_nonneg]

lemma tol1_pos : (0 : ℝ) < tol1 := by
  rw [tol1]
  norm_num

/-- Neither singular value of `X1` is truncated at tolerance `1e-10`. -/
lemma keep_tol1 : ∀ j, ¬ ((svdX1 X1).S j ≤ tol1 * (svdX1 X1).S 0) := by
  have hsp3 : sPl ≤ 3 := by
    rw [sPl]
    exact (Real.sqrt_le_left (by norm_num)).mpr (by nlinarith [r10_lt])
  have hsm2 : 1 / 2 < sMi := by
    rw [sMi]
    exact (Real.lt_sqrt (by norm_num)).mpr (by nlinarith [r10_lt])
  intro j
  fin_cases j <;>
    simp only [svdX1, Fin.mk_zero, Fin.mk_one, Matrix.cons_val_zero,
      Matrix.cons_val_one, Matrix.head_cons, not_le, Fin.isValue]
  · rw [tol1]
    nlinarith [sPl_pos]
  · rw [tol1]
    nlinarith [sPl_pos, hsp3, hsm2]

/-- The solver's exact behavior on the spec's concrete scenario: for any
valid balancing and SVD oracles with no truncation, the call succeeds and
returns `c = [7/6, 1/2]`, rank `2`, `chisq = 1/6`. -/
lemma line_fit_core
    (svd : Matrix (Fin 3) (Fin 2) ℝ → SVDResult 3 2)
    (bal : Matrix (Fin 3) (Fin 2) ℝ → Matrix (Fin 3) (Fin 2) ℝ × (Fin 2 → ℝ))
    (hbal : IsBalance (bal X1) X1)
    (hsvd : IsSVD (svd (bal X1).1) ((bal X1).1))
    (hkeep : ∀ j, ¬ ((svd (bal X1).1).S j
      ≤ tol1 * (svd (bal X1).1).S 0)) :
    ∃ out, gsl_multifit_linear_svd svd bal X1 y1 tol1 = .ok out ∧
      out.c = ![7 / 6, 1 / 2] ∧ out.rank = 2 ∧ out.chisq = 1 / 6 := by
  obtain ⟨out, hok⟩ : ∃ out,
      gsl_multifit_linear_svd svd bal X1 y1 tol1 = .ok out :=
    ⟨_, by rw [gsl_multifit_linear_svd, multifit_linear_svd,
      if_neg (not_le.mpr tol1_pos)]⟩
  obtain ⟨hc, hrank, hchisq⟩ := linear_svd_ok_fields_bal svd bal X1 y1 tol1
    0 out hok
  have hS0 : 0 ≤ (svd (bal X1).1).S 0 := hsvd.2.2.2.2 0
  have hSpos : ∀ j, 0 < (svd (bal X1).1).S j := fun j =>
    keep_pos tol1_pos hS0 (hkeep j)
  have hne : ∀ j, (svd (bal X1).1).S j ^ 2 + (0 : ℝ) ^ 2 ≠ 0 := fun j => by
    have := hSpos j
    positivity
  have NE := regularized_normal_equation (D := (bal X1).2) hsvd
    (fun j => (hbal.1 j).ne') (fun i j => hbal.2 i j) ((0 : ℝ) ^ 2)
    (reg_alpha tol1 0 (svd (bal X1).1).S) (reg_alpha_spec hkeep hne) y1
  rw [← hc, show ((0 : ℝ) ^ 2) = 0 by norm_num, zero_smul, add_zero] at NE
  have hcand : (X1ᵀ * X1) *ᵥ ![7 / 6, 1 / 2] = X1ᵀ *ᵥ y1 := by
    funext k
    fin_cases k <;>
      norm_num [X1, y1, Matrix.mulVec, Matrix.dotProduct, Matrix.mul_apply,
        Fin.sum_univ_two, Fin.sum_univ_three, Matrix.transpose_apply]
  have hceq : out.c = ![7 / 6, 1 / 2] := by
    refine normal_solution_unique (D := (bal X1).2) hsvd
      (fun j => (hbal.1 j).ne') (fun i j => hbal.2 i j)
      (fun j => (hSpos j).ne') (le_refl (0 : ℝ)) ?_
    rw [zero_smul, add_zero]
    exact NE.trans hcand.symm
  refine ⟨out, hok, hceq, ?_, ?_⟩
  · rw [hrank, effRank_all_kept hkeep]
  · rw [hchisq, hceq]
    norm_num [X1, y1, Fin.sum_univ_two, Fin.sum_univ_three]

/-- C1 (amended): on `X = [[1,0],[1,1],[1,2]]`, `y = [1,2,2]`,
`τ = 1e-10`, `λ = 0`, balancing enabled, the call succeeds and returns
the exact least-squares solution `c = [7/6, 1/2] ≈ [1.1667, 0.5]`,
effective rank `2`, and `chisq = 1/6 ≈ 0.1667` — not `c ≈ [1, 0.5]`
as the claim states. -/
theorem svd_line_fit_scenario
    (svd : Matrix (Fin 3) (Fin 2) ℝ → SVDResult 3 2)
    (bal : Matrix (Fin 3) (Fin 2) ℝ → Matrix (Fin 3) (Fin 2) ℝ × (Fin 2 → ℝ))
    (hbal : IsBalance (bal X1) X1)
    (hsvd : IsSVD (svd (bal X1).1) ((bal X1).1))
    (hkeep : ∀ j, ¬ ((svd (bal X1).1).S j
      ≤ tol1 * (svd (bal X1).1).S 0)) :
    ∃ out, gsl_multifit_linear_svd svd bal X1 y1 tol1 = .ok out ∧
      out.c = ![7 / 6, 1 / 2] ∧ out.rank = 2 ∧ out.chisq = 1 / 6 :=
  line_fit_core svd bal hbal hsvd hkeep

/-- Witness for the amended C1: every hypothesis discharged on the explicit
SVD oracle `svdX1` and the trivial balancer. -/
theorem svd_line_fit_scenario_witness :
    ∃ out, gsl_multifit_linear_svd svdX1 balId X1 y1 tol1 = .ok out ∧
      out.c = ![7 / 6, 1 / 2] ∧ out.rank = 2 ∧ out.chisq = 1 / 6 :=
  svd_line_fit_scenario svdX1 balId (isBalance_balId X1) isSVD_svdX1
    keep_tol1

/-- Counterexample to C1 as stated: with the valid oracle instance above,
the solve succeeds with `c 0 = 7/6`, which is not within `1/20` of the
claimed value `1` (the claimed `c ≈ [1, 0.5]` is also inconsistent with the
claimed `chisq ≈ 0.1667`: at `c = [1, 0.5]` the residual sum is `1/4`). -/
theorem svd_line_fit_c_not_near_one :
    IsBalance (balId X1) X1 ∧ IsSVD (svdX1 X1) X1 ∧
    (∀ j, ¬ ((svdX1 X1).S j ≤ tol1 * (svdX1 X1).S 0)) ∧
    ∃ out, gsl_multifit_linear_svd svdX1 balId X1 y1 tol1 = .ok out ∧
      out.c 0 = 7 / 6 ∧ ¬ (|out.c 0 - 1| ≤ 1 / 20) := by
  refine ⟨isBalance_balId X1, isSVD_svdX1, keep_tol1, ?_⟩
  obtain ⟨out, hok, hc, -, -⟩ := line_fit_core svdX1 balId
    (isBalance_balId X1) isSVD_svdX1 keep_tol1
  refine ⟨out, hok, ?_, ?_⟩
  · rw [hc]
    norm_num
  · rw [hc]
    rw [show (![7 / 6, 1 / 2] : Fin 2 → ℝ) 0 - 1 = 1 / 6 by norm_num,
      abs_of_nonneg (by norm_num)]
    norm_num

end GslMultifit
